import Mathlib

/-!
Verification development for the polyphonic synthesizer core
(`src/cxx/src/core` and friends): a shallow embedding in Lean 4 of the
ADSR envelope, modulation matrix, voice, voice manager, musical clock,
MIDI parser, note-name parser / engine facade, and the SPSC log ring,
together with theorems settling the specification claims.

Conventions of the embedding:
* C++ `float` / `double` values are modelled as rationals (`ℚ`);
* machine integers are modelled as `Nat` / `Int` (the spec itself notes
  that 64-bit timestamp wrap-around is ignored by the design);
* fallible operations return `Option`; C++ exceptions caught at the
  bridge are modelled by `Option` results;
* loops over fixed-size arrays become folds / scans over `List`s whose
  length invariant (16 voices, 128 map entries, 16 connections) is
  carried by the theorems.
-/

namespace Synth

/-- `std::clamp(v, lo, hi)`: `v < lo ? lo : (hi < v ? hi : v)`. -/
def clampQ (v lo hi : ℚ) : ℚ :=
  if v < lo then lo else if hi < v then hi else v

/-! ## ADSR envelope (`src/cxx/src/dsp/envelope/AdsrEnvelopeProcessor.hpp`) -/

/-- The five ADSR stages of `AdsrEnvelopeProcessor::State`. -/
inductive AdsrStage
  | Idle
  | Attack
  | Decay
  | Sustain
  | Release
deriving DecidableEq, Repr

/-- State of an `AdsrEnvelopeProcessor`: the stage, current level, the four
user parameters and the three derived rates, plus the sample rate passed to
the constructor. -/
structure AdsrEnv where
  sample_rate : ℚ
  state : AdsrStage
  current_level : ℚ
  attack_time : ℚ
  decay_time : ℚ
  sustain_level : ℚ
  release_time : ℚ
  attack_rate : ℚ
  decay_rate : ℚ
  release_rate : ℚ
deriving DecidableEq, Repr

/-- `AdsrEnvelopeProcessor::update_rates`. -/
def AdsrEnv.update_rates (e : AdsrEnv) : AdsrEnv :=
  { e with
    attack_rate := 1 / (e.attack_time * e.sample_rate)
    decay_rate := (1 - e.sustain_level) / (e.decay_time * e.sample_rate)
    release_rate := e.sustain_level / (e.release_time * e.sample_rate) }

/-- The constructor `AdsrEnvelopeProcessor(int sample_rate)`: stage `Idle`,
level 0, defaults attack 0.01 s, decay 0.1 s, sustain 0.7, release 0.2 s,
then `update_rates()`. -/
def AdsrEnv.init (sample_rate : ℚ) : AdsrEnv :=
  AdsrEnv.update_rates
    { sample_rate := sample_rate
      state := .Idle
      current_level := 0
      attack_time := 0.01
      decay_time := 0.1
      sustain_level := 0.7
      release_time := 0.2
      attack_rate := 0
      decay_rate := 0
      release_rate := 0 }

/-- `gate_on`: enter `Attack` (keeping the current level) and refresh rates. -/
def AdsrEnv.gate_on (e : AdsrEnv) : AdsrEnv :=
  AdsrEnv.update_rates { e with state := .Attack }

/-- `gate_off`: if not `Idle`, enter `Release` and refresh rates. -/
def AdsrEnv.gate_off (e : AdsrEnv) : AdsrEnv :=
  if e.state ≠ .Idle then AdsrEnv.update_rates { e with state := .Release } else e

/-- `is_active`: the stage is not `Idle`. -/
def AdsrEnv.is_active (e : AdsrEnv) : Bool :=
  e.state != .Idle

/-- `is_releasing`: the stage is `Release`. -/
def AdsrEnv.is_releasing (e : AdsrEnv) : Bool :=
  e.state == .Release

/-- `reset`: back to `Idle` with level 0 (parameters preserved). -/
def AdsrEnv.reset (e : AdsrEnv) : AdsrEnv :=
  { e with state := .Idle, current_level := 0 }

/-- `set_attack_time`: clamp to ≥ 1 ms, then `update_rates`. -/
def AdsrEnv.set_attack_time (e : AdsrEnv) (seconds : ℚ) : AdsrEnv :=
  AdsrEnv.update_rates { e with attack_time := max 0.001 seconds }

/-- `set_decay_time`: clamp to ≥ 1 ms, then `update_rates`. -/
def AdsrEnv.set_decay_time (e : AdsrEnv) (seconds : ℚ) : AdsrEnv :=
  AdsrEnv.update_rates { e with decay_time := max 0.001 seconds }

/-- `set_sustain_level`: clamp to [0, 1], then `update_rates`. -/
def AdsrEnv.set_sustain_level (e : AdsrEnv) (level : ℚ) : AdsrEnv :=
  AdsrEnv.update_rates { e with sustain_level := clampQ level 0 1 }

/-- `set_release_time`: clamp to ≥ 1 ms, then `update_rates`. -/
def AdsrEnv.set_release_time (e : AdsrEnv) (seconds : ℚ) : AdsrEnv :=
  AdsrEnv.update_rates { e with release_time := max 0.001 seconds }

/-- `AdsrEnvelopeProcessor::process_sample`: one sample of the envelope;
returns the output sample and the successor state. -/
def AdsrEnv.process_sample (e : AdsrEnv) : ℚ × AdsrEnv :=
  match e.state with
  | .Attack =>
      let lvl := e.current_level + e.attack_rate
      if 1 ≤ lvl then (1, { e with current_level := 1, state := .Decay })
      else (lvl, { e with current_level := lvl })
  | .Decay =>
      let lvl := e.current_level - e.decay_rate
      if lvl ≤ e.sustain_level then
        (e.sustain_level, { e with current_level := e.sustain_level, state := .Sustain })
      else (lvl, { e with current_level := lvl })
  | .Sustain => (e.sustain_level, { e with current_level := e.sustain_level })
  | .Release =>
      let lvl := e.current_level - e.release_rate
      if lvl ≤ 0 then (0, { e with current_level := 0, state := .Idle })
      else (lvl, { e with current_level := lvl })
  | .Idle => (0, { e with current_level := 0 })

/-- Envelope states reachable from the constructor (positive sample rate)
through the setters, the gates, `reset`, and per-sample pulls (a `pull`
over a block of `n` samples is `n` successive `process_sample` steps). -/
inductive AdsrReach : AdsrEnv → Prop
  | init (sample_rate : ℚ) (h : 0 < sample_rate) : AdsrReach (AdsrEnv.init sample_rate)
  | gateOn {e} (h : AdsrReach e) : AdsrReach e.gate_on
  | gateOff {e} (h : AdsrReach e) : AdsrReach e.gate_off
  | reset {e} (h : AdsrReach e) : AdsrReach e.reset
  | step {e} (h : AdsrReach e) : AdsrReach (e.process_sample).2
  | setAttack {e} (h : AdsrReach e) (s : ℚ) : AdsrReach (e.set_attack_time s)
  | setDecay {e} (h : AdsrReach e) (s : ℚ) : AdsrReach (e.set_decay_time s)
  | setSustain {e} (h : AdsrReach e) (l : ℚ) : AdsrReach (e.set_sustain_level l)
  | setRelease {e} (h : AdsrReach e) (s : ℚ) : AdsrReach (e.set_release_time s)

/-- The envelope with sustain level set to 0 and the gate opened, at sample
rate 1 (so that attack completes within one sample and decay reaches the
sustain floor at the next). -/
def envSustainZero : AdsrEnv :=
  ((AdsrEnv.init 1).set_sustain_level 0).gate_on

/-! ## First-match scan

`findFirst p l` is the index of the first element of `l` satisfying `p`,
the shape of every early-`break` scan loop in `VoiceManager::note_on` and
`ModulationMatrix::set_connection`. -/

def findFirst (p : α → Bool) : List α → Option Nat
  | [] => none
  | x :: xs => if p x then some 0 else (findFirst p xs).map (· + 1)

/-! ## Musical clock (`src/cxx/src/core/MusicalClock.hpp`) -/

/-- `MusicalTime`: 1-based bar and beat, 0-based tick. -/
structure MusicalTime where
  bar : Int
  beat : Int
  tick : Int
deriving DecidableEq, Repr

/-- `MusicalClock` state: rate, tempo, meter, derived `samples_per_tick`,
the continuous sample counter, and the two anchors taken at tempo / rate
changes. -/
structure MusicalClock where
  sample_rate : ℚ
  bpm : ℚ
  beats_per_bar : Int
  samples_per_tick : ℚ
  total_samples : ℚ
  total_samples_base : ℚ
  total_ticks : Int
  total_ticks_base : Int
deriving DecidableEq, Repr

/-- `PPQ = 960`. -/
def PPQ : Int := 960

/-- `MusicalClock::update_tick_duration`:
`samples_per_tick = sample_rate / ((bpm / 60) * PPQ)`. -/
def MusicalClock.update_tick_duration (c : MusicalClock) : MusicalClock :=
  { c with samples_per_tick := c.sample_rate / (c.bpm / 60 * (PPQ : ℚ)) }

/-- The constructor `MusicalClock(sample_rate, bpm = 120)`: meter 4, all
counters zero, then `update_tick_duration()`. -/
def MusicalClock.init (sample_rate bpm : ℚ) : MusicalClock :=
  MusicalClock.update_tick_duration
    { sample_rate := sample_rate
      bpm := bpm
      beats_per_bar := 4
      samples_per_tick := 0
      total_samples := 0
      total_samples_base := 0
      total_ticks := 0
      total_ticks_base := 0 }

/-- `set_bpm`: anchor the tick and sample counters, change the tempo,
recompute `samples_per_tick`. -/
def MusicalClock.set_bpm (c : MusicalClock) (bpm : ℚ) : MusicalClock :=
  MusicalClock.update_tick_duration
    { c with
      total_ticks_base := c.total_ticks
      total_samples_base := c.total_samples
      bpm := bpm }

/-- `set_sample_rate`: anchor, change the rate, recompute
`samples_per_tick`. -/
def MusicalClock.set_sample_rate (c : MusicalClock) (sample_rate : ℚ) : MusicalClock :=
  MusicalClock.update_tick_duration
    { c with
      total_ticks_base := c.total_ticks
      total_samples_base := c.total_samples
      sample_rate := sample_rate }

/-- `advance(num_samples)`: add to `total_samples` and recompute
`total_ticks` from the anchor (`std::floor` of the sample delta divided by
`samples_per_tick`). -/
def MusicalClock.advance (c : MusicalClock) (num_samples : Nat) : MusicalClock :=
  let total := c.total_samples + (num_samples : ℚ)
  { c with
    total_samples := total
    total_ticks := c.total_ticks_base + Rat.floor ((total - c.total_samples_base) / c.samples_per_tick) }

/-- `current_time()`: bar / beat / tick derived from `total_ticks` with C++
truncating 64-bit division and remainder. -/
def MusicalClock.current_time (c : MusicalClock) : MusicalTime :=
  let remaining := c.total_ticks
  let bar := Int.tdiv remaining (PPQ * c.beats_per_bar) + 1
  let remaining2 := Int.tmod remaining (PPQ * c.beats_per_bar)
  let beat := Int.tdiv remaining2 PPQ + 1
  let tick := Int.tmod remaining2 PPQ
  { bar := bar, beat := beat, tick := tick }

/-! ## Modulation matrix (`src/cxx/src/core/ModulationMatrix.hpp`) -/

/-- `ModulationTarget` (`Count` is a declared enumerator of the C++ enum and
is therefore a legal value of the type). -/
inductive ModulationTarget
  | Pitch
  | Cutoff
  | Resonance
  | Amplitude
  | Count
deriving DecidableEq, Repr

/-- `ModulationSource` (again including the declared `Count` enumerator). -/
inductive ModulationSource
  | Envelope
  | LFO
  | Velocity
  | Aftertouch
  | Count
deriving DecidableEq, Repr

/-- `static_cast<size_t>` of a `ModulationSource`, used to index the
source-value array. -/
def ModulationSource.idx : ModulationSource → Nat
  | .Envelope => 0
  | .LFO => 1
  | .Velocity => 2
  | .Aftertouch => 3
  | .Count => 4

/-- A `ModulationConnection` table entry. -/
structure ModulationConnection where
  source : ModulationSource
  target : ModulationTarget
  intensity : ℚ
  active : Bool
deriving DecidableEq, Repr

/-- The default-constructed (inactive) connection. -/
def connDefault : ModulationConnection :=
  { source := .Count, target := .Count, intensity := 0, active := false }

/-- `MAX_CONNECTIONS = 16`. -/
def MAX_CONNECTIONS : Nat := 16

/-- The freshly constructed matrix: 16 default (inactive) connections. -/
def matrixInit : List ModulationConnection :=
  List.replicate MAX_CONNECTIONS connDefault

/-- Does `c` match `(s, t)` as an active connection (the predicate of the
first loop of `set_connection` and of `clear_connection`)? -/
def connMatches (s : ModulationSource) (t : ModulationTarget)
    (c : ModulationConnection) : Bool :=
  c.active && c.source == s && c.target == t

/-- `ModulationMatrix::set_connection`: update the intensity of an existing
active `(s, t)` entry, else activate the first inactive slot, else do
nothing. -/
def set_connection (m : List ModulationConnection) (s : ModulationSource)
    (t : ModulationTarget) (intensity : ℚ) : List ModulationConnection :=
  match findFirst (connMatches s t) m with
  | some j => m.set j { m.getD j connDefault with intensity := intensity }
  | none =>
      match findFirst (fun c => !c.active) m with
      | some j => m.set j { source := s, target := t, intensity := intensity, active := true }
      | none => m

/-- `ModulationMatrix::clear_connection`: deactivate the first active
`(s, t)` entry. -/
def clear_connection (m : List ModulationConnection) (s : ModulationSource)
    (t : ModulationTarget) : List ModulationConnection :=
  match findFirst (connMatches s t) m with
  | some j => m.set j { m.getD j connDefault with active := false }
  | none => m

/-- `ModulationMatrix::clear_all`: deactivate every entry. -/
def clear_all (m : List ModulationConnection) : List ModulationConnection :=
  m.map fun c => { c with active := false }

/-- `ModulationMatrix::sum_for_target`: sum of
`source_values[source] * intensity` over the active entries for `t`, in
table order. -/
def sum_for_target (m : List ModulationConnection) (t : ModulationTarget)
    (source_values : List ℚ) : ℚ :=
  m.foldl
    (fun acc c =>
      if c.active && c.target == t then
        acc + source_values.getD c.source.idx 0 * c.intensity
      else acc)
    0

/-- A matrix whose slot 0 holds an active Envelope→Amplitude connection. -/
def exampleMatrixOne : List ModulationConnection :=
  matrixInit.set 0 { source := .Envelope, target := .Amplitude, intensity := 1, active := true }

/-- A full matrix: 16 active connections with pairwise-distinct
`(source, target)` pairs, none of them `(Envelope, Amplitude)`. -/
def exampleMatrixFull : List ModulationConnection :=
  [ { source := .Envelope, target := .Pitch, intensity := 1, active := true },
    { source := .LFO, target := .Pitch, intensity := 1, active := true },
    { source := .Velocity, target := .Pitch, intensity := 1, active := true },
    { source := .Aftertouch, target := .Pitch, intensity := 1, active := true },
    { source := .Count, target := .Pitch, intensity := 1, active := true },
    { source := .Envelope, target := .Cutoff, intensity := 1, active := true },
    { source := .LFO, target := .Cutoff, intensity := 1, active := true },
    { source := .Velocity, target := .Cutoff, intensity := 1, active := true },
    { source := .Aftertouch, target := .Cutoff, intensity := 1, active := true },
    { source := .Count, target := .Cutoff, intensity := 1, active := true },
    { source := .Envelope, target := .Resonance, intensity := 1, active := true },
    { source := .LFO, target := .Resonance, intensity := 1, active := true },
    { source := .Velocity, target := .Resonance, intensity := 1, active := true },
    { source := .Aftertouch, target := .Resonance, intensity := 1, active := true },
    { source := .Count, target := .Resonance, intensity := 1, active := true },
    { source := .LFO, target := .Amplitude, intensity := 1, active := true } ]

/-- States of a per-voice `ModulationMatrix` reachable from construction
through its public mutators. -/
inductive MatrixReach : List ModulationConnection → Prop
  | init : MatrixReach matrixInit
  | set {m} (h : MatrixReach m) (s : ModulationSource) (t : ModulationTarget)
      (intensity : ℚ) : MatrixReach (set_connection m s t intensity)
  | clear {m} (h : MatrixReach m) (s : ModulationSource) (t : ModulationTarget) :
      MatrixReach (clear_connection m s t)
  | clearAll {m} (h : MatrixReach m) : MatrixReach (clear_all m)

/-! ## Voice (`src/cxx/src/core/Voice.cpp`)

Only the state the voice-manager claims observe is modelled: the privately
owned envelope, the pan, the base frequency, the modulation matrix and the
cached `current_source_values_`. The oscillators / filter / LFO are
resettable signal generators whose internal state none of the claims
mention. -/

/-- The observable state of a `Voice`. -/
structure VoiceState where
  env : AdsrEnv
  pan : ℚ
  base_frequency : ℚ
  matrix : List ModulationConnection
  csv : List ℚ
deriving DecidableEq, Repr

/-- The `Voice(int sample_rate)` constructor: envelope configured with
attack 15 ms, decay 1 ms, sustain 1.0, release 50 ms; matrix cleared and
then given the default Envelope→Amplitude connection at intensity 1;
`current_source_values_` zero-filled; pan 0; `base_frequency_` 440. -/
def VoiceState.init (sample_rate : ℚ) : VoiceState :=
  { env := ((((AdsrEnv.init sample_rate).set_attack_time 0.015).set_decay_time
        0.001).set_sustain_level 1.0).set_release_time 0.050
    pan := 0
    base_frequency := 440
    matrix := set_connection (clear_all matrixInit) .Envelope .Amplitude 1.0
    csv := List.replicate 4 0 }

/-- `Voice::set_pan`: clamp to [-1, 1]. -/
def VoiceState.set_pan (v : VoiceState) (pan : ℚ) : VoiceState :=
  { v with pan := clampQ pan (-1) 1 }

/-- `Voice::note_on(frequency)`: store the base frequency, reset all
primitives (for the envelope: back to `Idle` at level 0), re-hardwire the
default VCA connection if the Amplitude modulation sum at the cached source
values is ≤ 0.001, and gate the envelope on. -/
def VoiceState.note_on (v : VoiceState) (frequency : ℚ) : VoiceState :=
  { v with
    base_frequency := frequency
    env := (v.env.reset).gate_on
    matrix :=
      if sum_for_target v.matrix .Amplitude v.csv ≤ 0.001 then
        set_connection v.matrix .Envelope .Amplitude 1.0
      else v.matrix }

/-- `Voice::note_off`: gate the envelope off. -/
def VoiceState.note_off (v : VoiceState) : VoiceState :=
  { v with env := v.env.gate_off }

/-- `Voice::is_active`: delegates to the envelope. -/
def VoiceState.is_active (v : VoiceState) : Bool :=
  v.env.is_active

/-- `Voice::reset`: reset the primitives (envelope to `Idle`, level 0);
pan, base parameters and matrix are untouched. -/
def VoiceState.reset (v : VoiceState) : VoiceState :=
  { v with env := v.env.reset }

/-- The state effect of the mono `Voice::do_pull`: the envelope is pulled
for exactly one sample (`env_buf`), whatever the block length. -/
def VoiceState.pull_mono (v : VoiceState) : VoiceState :=
  { v with env := (v.env.process_sample).2 }

/-! ## VoiceManager (`src/cxx/src/core/VoiceManager.cpp`)

`note_to_freq` (twelve-tone equal temperament, `440 · 2^((n-69)/12)`) takes
irrational values, so the frequency table is a parameter `nf` of the
operations; none of the claims depend on its values. -/

/-- A `VoiceSlot`: the owned voice plus the allocation bookkeeping. -/
structure VoiceSlot where
  voice : VoiceState
  current_note : Int
  active : Bool
  last_note_on_time : Nat
deriving DecidableEq, Repr

/-- Out-of-range read default (never reached under the length invariants). -/
def slotDefault : VoiceSlot :=
  { voice :=
      { env := AdsrEnv.init 0
        pan := 0
        base_frequency := 0
        matrix := matrixInit
        csv := List.replicate 4 0 }
    current_note := -1
    active := false
    last_note_on_time := 0 }

/-- `MAX_VOICES = 16`. -/
def MAX_VOICES : Nat := 16

/-- `VoiceManager` state: the 16 slots, the 128-entry pitch→slot map and
the monotone timestamp counter. -/
structure VoiceManagerState where
  slots : List VoiceSlot
  note_to_voice_map : List Int
  timestamp_counter : Nat
deriving DecidableEq, Repr

/-- The `VoiceManager(int sample_rate)` constructor. -/
def VoiceManagerState.init (sample_rate : ℚ) : VoiceManagerState :=
  { slots := List.replicate MAX_VOICES
      { voice := VoiceState.init sample_rate
        current_note := -1
        active := false
        last_note_on_time := 0 }
    note_to_voice_map := List.replicate 128 (-1)
    timestamp_counter := 0 }

/-- `note & 0x7F` on a C++ `int`: the low seven bits of the two's
complement representation, i.e. the Euclidean remainder mod 128. -/
def mask7 (note : Int) : Nat := (note % 128).toNat

/-- The LRU scan of `note_on` (priority 2): running first strict minimum of
`last_note_on_time`, starting from `oldest = UINT64_MAX` and candidate
`-1`. -/
def lruScan : List VoiceSlot → Nat → Int → Nat → Int
  | [], _, cand, _ => cand
  | s :: rest, i, cand, oldest =>
      if s.last_note_on_time < oldest then
        lruScan rest (i + 1) ((i : Nat) : Int) s.last_note_on_time
      else lruScan rest (i + 1) cand oldest

/-- The LRU candidate over the whole slot array. -/
def lruCandidate (slots : List VoiceSlot) : Int :=
  lruScan slots 0 (-1) (2 ^ 64 - 1)

/-- `VoiceManager::note_on(note, velocity, frequency)` (velocity is unused
by the implementation). Steps: resolve the frequency; retrigger in place if
the pitch is mapped to a matching active slot; otherwise claim the first
slot whose voice is inactive; otherwise steal the first releasing slot, or
failing that the LRU slot. -/
def VoiceManagerState.note_on (nf : Int → ℚ) (vm : VoiceManagerState)
    (note : Int) (velocity frequency : ℚ) : VoiceManagerState :=
  let _ := velocity
  let freq := if 0 < frequency then frequency else nf note
  let p := mask7 note
  let existing := vm.note_to_voice_map.getD p (-1)
  if existing ≠ -1 ∧
      (vm.slots.getD existing.toNat slotDefault).active = true ∧
      (vm.slots.getD existing.toNat slotDefault).current_note = note then
    let i := existing.toNat
    let slot := vm.slots.getD i slotDefault
    { vm with
      timestamp_counter := vm.timestamp_counter + 1
      slots := vm.slots.set i
        { slot with
          last_note_on_time := vm.timestamp_counter + 1
          voice := slot.voice.note_on freq } }
  else
    match findFirst (fun s => !s.voice.is_active) vm.slots with
    | some idle =>
        let slot := vm.slots.getD idle slotDefault
        { vm with
          timestamp_counter := vm.timestamp_counter + 1
          slots := vm.slots.set idle
            { slot with
              current_note := note
              active := true
              last_note_on_time := vm.timestamp_counter + 1
              voice := slot.voice.note_on freq }
          note_to_voice_map := vm.note_to_voice_map.set p ((idle : Nat) : Int) }
    | none =>
        let cand :=
          match findFirst (fun s => s.voice.env.is_releasing) vm.slots with
          | some r => ((r : Nat) : Int)
          | none => lruCandidate vm.slots
        if cand ≠ -1 then
          let ci := cand.toNat
          let slot := vm.slots.getD ci slotDefault
          let map1 :=
            if slot.current_note ≠ -1 then
              vm.note_to_voice_map.set (mask7 slot.current_note) (-1)
            else vm.note_to_voice_map
          { vm with
            timestamp_counter := vm.timestamp_counter + 1
            slots := vm.slots.set ci
              { slot with
                current_note := note
                active := true
                last_note_on_time := vm.timestamp_counter + 1
                voice := ((slot.voice.reset).set_pan 0).note_on freq }
            note_to_voice_map := map1.set p cand }
        else vm

/-- `VoiceManager::note_off(note)`: if the pitch still maps to a slot
playing it, gate that voice off and clear the map entry; the slot's
`active` flag stays set (lazy reclamation in the next render). -/
def VoiceManagerState.note_off (vm : VoiceManagerState) (note : Int) :
    VoiceManagerState :=
  let p := mask7 note
  let existing := vm.note_to_voice_map.getD p (-1)
  if existing ≠ -1 ∧
      (vm.slots.getD existing.toNat slotDefault).active = true ∧
      (vm.slots.getD existing.toNat slotDefault).current_note = note then
    let i := existing.toNat
    let slot := vm.slots.getD i slotDefault
    { vm with
      slots := vm.slots.set i { slot with voice := slot.voice.note_off }
      note_to_voice_map := vm.note_to_voice_map.set p (-1) }
  else vm

/-- One iteration of the per-slot loop of the mono
`VoiceManager::do_pull`: an active slot with an active voice is pulled
(envelope advances one sample); an active slot whose voice has terminated
is reclaimed, clearing the map entry only if it still points here. -/
def pullSlotStep (vm : VoiceManagerState) (i : Nat) : VoiceManagerState :=
  let slot := vm.slots.getD i slotDefault
  if slot.active = true then
    if slot.voice.is_active = true then
      { vm with slots := vm.slots.set i { slot with voice := slot.voice.pull_mono } }
    else
      let map1 :=
        if slot.current_note ≠ -1 ∧
            vm.note_to_voice_map.getD (mask7 slot.current_note) (-1) = ((i : Nat) : Int) then
          vm.note_to_voice_map.set (mask7 slot.current_note) (-1)
        else vm.note_to_voice_map
      { vm with
        slots := vm.slots.set i { slot with active := false, current_note := -1 }
        note_to_voice_map := map1 }
  else vm

/-- The state effect of the mono `VoiceManager::do_pull`: the slot loop in
index order (the summing into the output buffer has no state effect). -/
def VoiceManagerState.do_pull (vm : VoiceManagerState) : VoiceManagerState :=
  (List.range MAX_VOICES).foldl pullSlotStep vm

/-- The result of stealing slot `j` for `note` at resolved frequency
`freq`: the statement-side transcription of the steal block of
`VoiceManager::note_on`. -/
def stealResult (vm : VoiceManagerState) (note : Int) (freq : ℚ) (j : Nat) :
    VoiceManagerState :=
  let slot := vm.slots.getD j slotDefault
  let map1 :=
    if slot.current_note ≠ -1 then
      vm.note_to_voice_map.set (mask7 slot.current_note) (-1)
    else vm.note_to_voice_map
  { vm with
    timestamp_counter := vm.timestamp_counter + 1
    slots := vm.slots.set j
      { slot with
        current_note := note
        active := true
        last_note_on_time := vm.timestamp_counter + 1
        voice := ((slot.voice.reset).set_pan 0).note_on freq }
    note_to_voice_map := map1.set (mask7 note) ((j : Nat) : Int) }

/-- Voice-manager states reachable from construction by `note_on`,
`note_off` and block renders, for MIDI pitches in [0, 128). -/
inductive VMReach (nf : Int → ℚ) : VoiceManagerState → Prop
  | init (sample_rate : ℚ) : VMReach nf (VoiceManagerState.init sample_rate)
  | noteOn {vm} (h : VMReach nf vm) (note : Int) (h0 : 0 ≤ note) (h1 : note < 128)
      (velocity frequency : ℚ) :
      VMReach nf (vm.note_on nf note velocity frequency)
  | noteOff {vm} (h : VMReach nf vm) (note : Int) (h0 : 0 ≤ note) (h1 : note < 128) :
      VMReach nf (vm.note_off note)
  | pull {vm} (h : VMReach nf vm) : VMReach nf vm.do_pull

/-- The envelope is gated: in `Attack`, `Decay` or `Sustain` (entered by
`gate_on` and left only by `gate_off` or `reset`). -/
def envGated (e : AdsrEnv) : Prop :=
  e.state = .Attack ∨ e.state = .Decay ∨ e.state = .Sustain

/-- The voice-manager invariant: fixed lengths, and every non-negative
map entry points to a matching active slot with a gated envelope. -/
def VMInv (vm : VoiceManagerState) : Prop :=
  vm.slots.length = MAX_VOICES ∧ vm.note_to_voice_map.length = 128 ∧
  ∀ p i, p < 128 → vm.note_to_voice_map.getD p (-1) = ((i : Nat) : Int) →
    i < MAX_VOICES ∧
    (vm.slots.getD i slotDefault).active = true ∧
    (vm.slots.getD i slotDefault).current_note = ((p : Nat) : Int) ∧
    envGated (vm.slots.getD i slotDefault).voice.env

/-- A slot used by the steal-priority witnesses: active, holding `note`,
with the given envelope stage and timestamp. -/
def witSlot (st : AdsrStage) (note : Int) (time : Nat) : VoiceSlot :=
  { voice :=
      { env := ⟨48000, st, 1, 0.01, 0.1, 1, 0.2, 1, 0, 1⟩
        pan := 0
        base_frequency := 440
        matrix := matrixInit
        csv := List.replicate 4 0 }
    current_note := note
    active := true
    last_note_on_time := time }

/-- 16 busy voices, slot 2 releasing, the rest sustaining. -/
def vmReleasing : VoiceManagerState :=
  { slots := (List.range 16).map fun k =>
      witSlot (if k = 2 then .Release else .Sustain) ((k : Nat) : Int) (k + 1)
    note_to_voice_map := List.replicate 128 (-1)
    timestamp_counter := 20 }

/-- 16 busy sustaining voices with unique timestamps, the oldest at
slot 15. -/
def vmOldest : VoiceManagerState :=
  { slots := (List.range 16).map fun k => witSlot .Sustain ((k : Nat) : Int) (20 - k)
    note_to_voice_map := List.replicate 128 (-1)
    timestamp_counter := 20 }

/-! ## MIDI parser (`src/cxx/src/core/MidiParser.cpp`) -/

/-- `MidiParser::State`. -/
inductive ParserPhase
  | WaitingForStatus
  | WaitingForData1
  | WaitingForData2
deriving DecidableEq, Repr

/-- The parser's mutable state (`m_state`, `m_runningStatus`,
`m_pendingStatus`, `m_pendingData1`); bytes are `Nat` values < 256. -/
structure MidiParserState where
  phase : ParserPhase
  runningStatus : Nat
  pendingStatus : Nat
  pendingData1 : Nat
deriving DecidableEq, Repr

/-- The default-constructed parser. -/
def midiParserInit : MidiParserState :=
  { phase := .WaitingForStatus, runningStatus := 0, pendingStatus := 0, pendingData1 := 0 }

/-- A decoded `MidiEvent`. -/
structure MidiEventRec where
  status : Nat
  data1 : Nat
  data2 : Nat
  sample_offset : Nat
deriving DecidableEq, Repr

/-- `MidiParser::getExpectedDataBytes`: switch on the status high nibble
(`status & 0xF0`, here `status / 16` for bytes < 256). -/
def getExpectedDataBytes (status : Nat) : Nat :=
  match status / 16 with
  | 8 => 2
  | 9 => 2
  | 10 => 2
  | 11 => 2
  | 14 => 2
  | 12 => 1
  | 13 => 1
  | _ => 0

/-- One loop iteration of `MidiParser::parse` on byte `b`
(`isStatusByte(b)` is `b ≥ 0x80`; real-time bytes `≥ 0xF8` are skipped;
a data byte in `WaitingForStatus` with non-zero running status re-enters
`WaitingForData1` with the cached status). -/
def parseByte (sampleOffset : Nat) (st : MidiParserState) (b : Nat) :
    MidiParserState × Option MidiEventRec :=
  if 128 ≤ b then
    if 248 ≤ b then (st, none)
    else ({ st with pendingStatus := b, runningStatus := b, phase := .WaitingForData1 },
      none)
  else
    let st2 :=
      if st.phase = .WaitingForStatus ∧ st.runningStatus ≠ 0 then
        { st with pendingStatus := st.runningStatus, phase := .WaitingForData1 }
      else st
    match st2.phase with
    | .WaitingForData1 =>
        if getExpectedDataBytes st2.pendingStatus = 1 then
          ({ st2 with pendingData1 := b, phase := .WaitingForStatus },
            some ⟨st2.pendingStatus, b, 0, sampleOffset⟩)
        else ({ st2 with pendingData1 := b, phase := .WaitingForData2 }, none)
    | .WaitingForData2 =>
        ({ st2 with phase := .WaitingForStatus },
          some ⟨st2.pendingStatus, st2.pendingData1, b, sampleOffset⟩)
    | .WaitingForStatus => (st2, none)

/-- `MidiParser::parse` over a byte list, collecting the events passed to
the callback in order. -/
def midiParse (sampleOffset : Nat) (st : MidiParserState) (bytes : List Nat) :
    MidiParserState × List MidiEventRec :=
  bytes.foldl
    (fun acc b =>
      let r := parseByte sampleOffset acc.1 b
      (r.1, acc.2 ++ r.2.toList))
    (st, [])

/-! ## Note names and the bridge
(`src/cxx/audio/TuningSystem.hpp`, `src/cxx/src/bridge/AudioBridge.cpp`)

The `Note(std::string_view)` constructor throws on bad input;
`engine_note_on_name` catches every exception and returns `-1`. Throwing
paths are modelled as `none`. `TwelveToneEqual::get_frequency` is
irrational-valued and enters only as the abstract parameter `tuning`. -/

/-- The whitespace class skipped by `std::stoi` / `strtol`. -/
def isSpaceChar (c : Char) : Bool :=
  c = ' ' || c = '\t' || c = '\n' || c = '\x0b' || c = '\x0c' || c = '\r'

/-- Decimal value of a digit run. -/
def digitsToNat (ds : List Char) : Nat :=
  ds.foldl (fun acc c => acc * 10 + (c.toNat - '0'.toNat)) 0

/-- The digit phase of `std::stoi`: at least one digit, stop at the first
non-digit, throw `out_of_range` outside the 32-bit `int` range. -/
def stoiDigits (cs : List Char) (neg : Bool) : Option Int :=
  let ds := cs.takeWhile Char.isDigit
  if ds.isEmpty then none
  else
    let sv : Int := if neg then -(digitsToNat ds : Int) else (digitsToNat ds : Int)
    if sv < -2147483648 ∨ 2147483647 < sv then none else some sv

/-- `std::stoi` (base 10): skip whitespace, optional single sign, digits. -/
def stoiModel (cs : List Char) : Option Int :=
  match cs.dropWhile isSpaceChar with
  | '-' :: rest => stoiDigits rest true
  | '+' :: rest => stoiDigits rest false
  | rest => stoiDigits rest false

/-- The `name_to_offset` table of `Note::Note` (keys already upper-cased). -/
def noteOffset (cs : List Char) : Option Int :=
  match cs with
  | ['C'] => some 0
  | ['C', '#'] => some 1
  | ['D', 'B'] => some 1
  | ['D'] => some 2
  | ['D', '#'] => some 3
  | ['E', 'B'] => some 3
  | ['E'] => some 4
  | ['F'] => some 5
  | ['F', '#'] => some 6
  | ['G', 'B'] => some 6
  | ['G'] => some 7
  | ['G', '#'] => some 8
  | ['A', 'B'] => some 8
  | ['A'] => some 9
  | ['A', '#'] => some 10
  | ['B', 'B'] => some 10
  | ['B'] => some 11
  | _ => none

/-- `Note::Note(std::string_view)`: empty → throw; upper-case the letter;
take an accidental if the next char is `#` or (case-insensitively) `b`;
look the name up (miss → throw); octave must be present (else throw) and
parse via `stoi` (no digits / out of range → throw); MIDI note is
`(octave + 1) * 12 + offset`. A one-character name fails either at the
lookup or at the missing-octave check; both are `none`. -/
def noteNameToMidi (name : String) : Option Int :=
  match name.data with
  | [] => none
  | c0 :: rest =>
      let u0 := c0.toUpper
      match rest with
      | [] => none
      | c1 :: rest2 =>
          if c1 = '#' ∨ c1.toLower = 'b' then
            match noteOffset [u0, c1.toUpper] with
            | none => none
            | some off =>
                if rest2.isEmpty then none
                else
                  match stoiModel rest2 with
                  | none => none
                  | some oct => some ((oct + 1) * 12 + off)
          else
            match noteOffset [u0] with
            | none => none
            | some off =>
                match stoiModel (c1 :: rest2) with
                | none => none
                | some oct => some ((oct + 1) * 12 + off)

/-- `engine_note_on_name` (non-null handle): construct the `Note` (any
throw is caught → status `-1`, engine untouched), query the tuning, call
the pitch variant of `note_on`, return status 0. -/
def engine_note_on_name (nf tuning : Int → ℚ) (vm : VoiceManagerState)
    (note_name : String) (velocity : ℚ) : Int × VoiceManagerState :=
  match noteNameToMidi note_name with
  | none => (-1, vm)
  | some m => (0, vm.note_on nf m velocity (tuning m))

/-! ## SPSC log ring (`src/cxx/src/core/Logger.hpp`) -/

/-- `LockFreeRingBuffer<T, Size>` state: the storage and the atomic head
and tail indices (the SPSC claims concern the sequential state machine). -/
structure RingBuffer (T : Type) (size : Nat) where
  buffer : List T
  head : Nat
  tail : Nat
deriving Repr

/-- `push`: full when advancing `head` by one (mod `Size`, via the
`Size - 1` mask) would meet `tail`; then the item is dropped and `false`
returned, else the item is stored at `head` and `head` advances. -/
def RingBuffer.push (r : RingBuffer T size) (item : T) :
    Bool × RingBuffer T size :=
  if (r.head + 1) &&& (size - 1) = r.tail then (false, r)
  else (true,
    { r with buffer := r.buffer.set r.head item, head := (r.head + 1) &&& (size - 1) })

/-- `pop`: empty when `tail = head`; else read at `tail` and advance it. -/
def RingBuffer.pop [Inhabited T] (r : RingBuffer T size) :
    Option T × RingBuffer T size :=
  if r.tail = r.head then (none, r)
  else (some (r.buffer.getD r.tail default),
    { r with tail := (r.tail + 1) &&& (size - 1) })

/-- The number of entries currently held: `head - tail` modulo `size`. -/
def RingBuffer.count (r : RingBuffer T size) : Nat :=
  (size + r.head - r.tail) % size

/-- At most one active entry per `(source, target)` pair. -/
def matrixUnique (m : List ModulationConnection) : Prop :=
  ∀ j, j < m.length → ∀ k, k < m.length → j ≠ k →
    (m.getD j connDefault).active = true → (m.getD k connDefault).active = true →
    (m.getD j connDefault).source ≠ (m.getD k connDefault).source ∨
      (m.getD j connDefault).target ≠ (m.getD k connDefault).target

/-- Executable check for `matrixUnique`. -/
def matrixUniqueB (m : List ModulationConnection) : Bool :=
  (List.range m.length).all fun j =>
    (List.range m.length).all fun k =>
      j == k ||
      !(m.getD j connDefault).active || !(m.getD k connDefault).active ||
      (m.getD j connDefault).source != (m.getD k connDefault).source ||
      (m.getD j connDefault).target != (m.getD k connDefault).target

/-- The envelope's numeric invariant: level in [0, 1], sustain in [0, 1],
positive attack rate, non-negative decay / release rates, and positive
times and sample rate. -/
def AdsrInv (e : AdsrEnv) : Prop :=
  0 ≤ e.current_level ∧ e.current_level ≤ 1 ∧
  0 ≤ e.sustain_level ∧ e.sustain_level ≤ 1 ∧
  0 < e.attack_rate ∧ 0 ≤ e.decay_rate ∧ 0 ≤ e.release_rate ∧
  0 < e.sample_rate ∧ 0 < e.attack_time ∧ 0 < e.decay_time ∧ 0 < e.release_time

/-- The retrigger guard of `note_on` (map entry valid and matching). -/
def retriggerCond (vm : VoiceManagerState) (note : Int) : Prop :=
  vm.note_to_voice_map.getD (mask7 note) (-1) ≠ -1 ∧
  (vm.slots.getD (vm.note_to_voice_map.getD (mask7 note) (-1)).toNat slotDefault).active = true ∧
  (vm.slots.getD (vm.note_to_voice_map.getD (mask7 note) (-1)).toNat slotDefault).current_note = note

/-- A constant frequency table, standing in for `note_to_freq` where the
value is irrelevant. -/
def nfConst : Int → ℚ := fun _ => 440

/-- The manager after `note_on 60`, `note_off 60`, `note_on 60`: slot 0 is
still active (releasing) on pitch 60 while slot 1 is newly active on
pitch 60. -/
def vmDoubleSixty : VoiceManagerState :=
  ((((VoiceManagerState.init 48000).note_on nfConst 60 1 440).note_off 60).note_on
    nfConst 60 1 440)

/-- A voice with the default connection cleared and replaced by an active
LFO→Amplitude connection, whose cached LFO source value is 1. -/
def voiceLfoAmp : VoiceState :=
  { env := AdsrEnv.init 48000
    pan := 0
    base_frequency := 440
    matrix := matrixInit.set 0
      { source := .LFO, target := .Amplitude, intensity := 1, active := true }
    csv := [0, 1, 0, 0] }

/-- A voice with every modulation connection cleared and zero cached source
values. -/
def voiceCleared : VoiceState :=
  { env := AdsrEnv.init 48000
    pan := 0
    base_frequency := 440
    matrix := matrixInit
    csv := List.replicate 4 0 }

/-- A voice whose matrix is completely full (16 active connections) and
contains an active Envelope→Amplitude entry at intensity 1/2, with zero
cached source values (so the Amplitude modulation sum is 0). -/
def voiceFullMatch : VoiceState :=
  { env := AdsrEnv.init 48000
    pan := 0
    base_frequency := 440
    matrix := exampleMatrixFull.set 15
      { source := .Envelope, target := .Amplitude, intensity := 1/2, active := true }
    csv := List.replicate 4 0 }

end Synth

namespace Synth

/-- `Rat.floor` agrees with the `FloorRing` floor on `ℚ`. -/
lemma findFirst_cons (p : α → Bool) (x : α) (xs : List α) :
    findFirst p (x :: xs) = if p x then some 0 else (findFirst p xs).map (· + 1) := rfl

lemma findFirst_eq_some_iff (p : α → Bool) (d : α) (l : List α) (j : Nat) :
    findFirst p l = some j ↔
      j < l.length ∧ p (l.getD j d) = true ∧ ∀ k, k < j → p (l.getD k d) = false := by
  induction l generalizing j with
  | nil => simp [findFirst]
  | cons x xs ih =>
      rw [findFirst_cons]
      cases hx : p x with
      | true =>
          rw [if_pos rfl]
          cases j with
          | zero =>
              refine ⟨fun _ => ⟨by simp, by simpa using hx, by omega⟩, fun _ => rfl⟩
          | succ m =>
              constructor
              · intro h
                exact absurd (Option.some.inj h) (by omega)
              · intro ⟨_, _, hfirst⟩
                have h0 := hfirst 0 (Nat.succ_pos m)
                rw [List.getD_cons_zero, hx] at h0
                cases h0
      | false =>
          rw [if_neg (by simp [hx])]
          cases j with
          | zero =>
              constructor
              · intro h
                rcases Option.map_eq_some'.1 h with ⟨a, _, hae⟩
                omega
              · intro ⟨_, hpx, _⟩
                rw [List.getD_cons_zero] at hpx
                rw [hpx] at hx
                cases hx
          | succ m =>
              constructor
              · intro h
                rcases Option.map_eq_some'.1 h with ⟨a, ha, hae⟩
                obtain rfl : m = a := by omega
                rcases (ih m).1 ha with ⟨h1, h2, h3⟩
                refine ⟨by simp only [List.length_cons]; omega,
                  by simpa [List.getD_cons_succ] using h2, ?_⟩
                intro k hk
                cases k with
                | zero => simpa using hx
                | succ k2 =>
                    rw [List.getD_cons_succ]
                    exact h3 k2 (by omega)
              · intro ⟨h1, h2, h3⟩
                have hxs : findFirst p xs = some m := by
                  refine (ih m).2 ⟨?_, by simpa [List.getD_cons_succ] using h2, ?_⟩
                  · simp only [List.length_cons] at h1
                    omega
                  · intro k hk
                    have hkk := h3 (k + 1) (by omega)
                    rwa [List.getD_cons_succ] at hkk
                rw [hxs]
                rfl

lemma findFirst_eq_none_iff (p : α → Bool) (d : α) (l : List α) :
    findFirst p l = none ↔ ∀ k, k < l.length → p (l.getD k d) = false := by
  induction l with
  | nil => simp [findFirst]
  | cons x xs ih =>
      rw [findFirst_cons]
      cases hx : p x with
      | true =>
          rw [if_pos rfl]
          constructor
          · intro h
            cases h
          · intro h
            have h0 := h 0 (by simp)
            rw [List.getD_cons_zero, hx] at h0
            cases h0
      | false =>
          rw [if_neg (by simp [hx]), Option.map_eq_none', ih]
          constructor
          · intro h k hk
            cases k with
            | zero => simpa using hx
            | succ m =>
                rw [List.getD_cons_succ]
                refine h m ?_
                simp only [List.length_cons] at hk
                omega
          · intro h k hk
            have hkk := h (k + 1) (by simp only [List.length_cons]; omega)
            rwa [List.getD_cons_succ] at hkk

lemma ratFloor_eq_floor (q : ℚ) : Rat.floor q = ⌊q⌋ := rfl

lemma advance_total_samples (c : MusicalClock) (b : Nat) :
    (c.advance b).total_samples = c.total_samples + (b : ℚ) := rfl

lemma advance_total_samples_base (c : MusicalClock) (b : Nat) :
    (c.advance b).total_samples_base = c.total_samples_base := rfl

lemma advance_samples_per_tick (c : MusicalClock) (b : Nat) :
    (c.advance b).samples_per_tick = c.samples_per_tick := rfl

lemma advance_total_ticks_base (c : MusicalClock) (b : Nat) :
    (c.advance b).total_ticks_base = c.total_ticks_base := rfl

lemma advance_total_ticks (c : MusicalClock) (b : Nat) :
    (c.advance b).total_ticks =
      c.total_ticks_base +
        Rat.floor ((c.total_samples + (b : ℚ) - c.total_samples_base) / c.samples_per_tick) := rfl

/-- Folding `advance` over a list of block sizes: the sample counter grows by
the total, the anchors and `samples_per_tick` are untouched, and after at
least one block the tick counter is the floor of the anchored sample delta. -/
lemma advance_foldl (bs : List Nat) (c : MusicalClock) :
    (bs.foldl MusicalClock.advance c).total_samples = c.total_samples + (bs.sum : ℚ) ∧
    (bs.foldl MusicalClock.advance c).total_samples_base = c.total_samples_base ∧
    (bs.foldl MusicalClock.advance c).samples_per_tick = c.samples_per_tick ∧
    (bs.foldl MusicalClock.advance c).total_ticks_base = c.total_ticks_base ∧
    (bs ≠ [] →
      (bs.foldl MusicalClock.advance c).total_ticks =
        c.total_ticks_base +
          Rat.floor (((bs.foldl MusicalClock.advance c).total_samples
            - c.total_samples_base) / c.samples_per_tick)) := by
  induction bs generalizing c with
  | nil => simp
  | cons b rest ih =>
      rcases ih (c.advance b) with ⟨h1, h2, h3, h4, h5⟩
      refine ⟨?_, ?_, ?_, ?_, ?_⟩
      · simp only [List.foldl_cons, h1, advance_total_samples, List.sum_cons]
        push_cast
        ring
      · simpa only [List.foldl_cons, advance_total_samples_base] using h2
      · simpa only [List.foldl_cons, advance_samples_per_tick] using h3
      · simpa only [List.foldl_cons, advance_total_ticks_base] using h4
      · intro _
        rcases eq_or_ne rest [] with hrest | hrest
        · subst hrest
          simp only [List.foldl_cons, List.foldl_nil, advance_total_ticks,
            advance_total_samples]
        · have h5 := h5 hrest
          simp only [List.foldl_cons] at h1 h5 ⊢
          rw [h5, advance_total_samples_base, advance_samples_per_tick,
            advance_total_ticks_base]

/-- C8: clock concrete value. From a freshly constructed clock at sample
rate 44100 and 120 BPM, any sequence of positive-size `advance` blocks
totalling 1,000,000 samples leaves `total_ticks() = 43537`. -/
theorem C8_clock_concrete_value (bs : List Nat)
    (hpos : ∀ b ∈ bs, 0 < b) (hsum : bs.sum = 1000000) :
    (bs.foldl MusicalClock.advance (MusicalClock.init 44100 120)).total_ticks = 43537 := by
  have hne : bs ≠ [] := by
    intro h
    rw [h] at hsum
    simp at hsum
  rcases advance_foldl bs (MusicalClock.init 44100 120) with ⟨h1, _, _, _, h5⟩
  rw [h5 hne, h1, hsum]
  show (0 : Int) + Rat.floor ((0 + ((1000000 : Nat) : ℚ) - 0) / (44100 / (120 / 60 * 960))) = 43537
  rw [ratFloor_eq_floor]
  norm_num

/-- Witness for C8: a single block of 1,000,000 samples satisfies the
hypotheses and yields 43537 ticks. -/
theorem C8_clock_concrete_value_witness :
    (∀ b ∈ [1000000], 0 < b) ∧ ([1000000] : List Nat).sum = 1000000 ∧
    (([1000000] : List Nat).foldl MusicalClock.advance
      (MusicalClock.init 44100 120)).total_ticks = 43537 :=
  ⟨by decide, by decide,
    C8_clock_concrete_value [1000000] (by decide) (by decide)⟩

lemma getD_set_self (l : List α) (i : Nat) (a d : α) (h : i < l.length) :
    (l.set i a).getD i d = a := by
  simp [List.getD_eq_getElem?_getD, List.getElem?_set_self h]

lemma getD_set_ne (l : List α) (i j : Nat) (a d : α) (h : i ≠ j) :
    (l.set i a).getD j d = l.getD j d := by
  simp [List.getD_eq_getElem?_getD, List.getElem?_set_ne h]

lemma connMatches_false_of_source (s : ModulationSource) (t : ModulationTarget)
    (c : ModulationConnection) (h : c.source ≠ s) : connMatches s t c = false := by
  simp [connMatches, h]

lemma connMatches_false_of_target (s : ModulationSource) (t : ModulationTarget)
    (c : ModulationConnection) (h : c.target ≠ t) : connMatches s t c = false := by
  simp [connMatches, h]

lemma matrixUnique_of_matrixUniqueB (m : List ModulationConnection)
    (h : matrixUniqueB m = true) : matrixUnique m := by
  intro j hj k hk hne ha hb
  have hj2 := List.all_eq_true.1 h j (List.mem_range.2 hj)
  have hk2 := List.all_eq_true.1 hj2 k (List.mem_range.2 hk)
  simp only [Bool.or_eq_true] at hk2
  rcases hk2 with ⟨⟨⟨h1 | h2⟩ | h3⟩ | h4⟩ | h5
  · exact absurd (beq_iff_eq.1 h1) hne
  · rw [ha] at h2
    cases h2
  · rw [hb] at h3
    cases h3
  · exact Or.inl (bne_iff_ne.1 h4)
  · exact Or.inr (bne_iff_ne.1 h5)

lemma matrixUnique_init : matrixUnique matrixInit := by
  intro j hj k hk _ hact _
  exfalso
  rw [matrixInit, MAX_CONNECTIONS] at hj hact
  rw [List.getD_eq_getElem?_getD, List.getElem?_replicate_of_lt (by simpa using hj)] at hact
  simp [connDefault] at hact

lemma matrixUnique_set_connection (m : List ModulationConnection)
    (s : ModulationSource) (t : ModulationTarget) (i : ℚ) (h : matrixUnique m) :
    matrixUnique (set_connection m s t i) := by
  rw [set_connection]
  cases h1 : findFirst (connMatches s t) m with
  | some j =>
      rcases (findFirst_eq_some_iff _ connDefault _ _).1 h1 with ⟨hj, hpj, _⟩
      intro a ha b hb hab hacta hactb
      rw [List.length_set] at ha hb
      have key : ∀ c, c < m.length →
          ((m.set j { m.getD j connDefault with intensity := i }).getD c connDefault).active
            = (m.getD c connDefault).active ∧
          ((m.set j { m.getD j connDefault with intensity := i }).getD c connDefault).source
            = (m.getD c connDefault).source ∧
          ((m.set j { m.getD j connDefault with intensity := i }).getD c connDefault).target
            = (m.getD c connDefault).target := by
        intro c hc
        rcases eq_or_ne j c with rfl | hne
        · rw [getD_set_self _ _ _ _ hj]
          exact ⟨rfl, rfl, rfl⟩
        · rw [getD_set_ne _ _ _ _ _ hne]
          exact ⟨rfl, rfl, rfl⟩
      rcases key a ha with ⟨ka1, ka2, ka3⟩
      rcases key b hb with ⟨kb1, kb2, kb3⟩
      rw [ka1] at hacta
      rw [kb1] at hactb
      rw [ka2, ka3, kb2, kb3]
      exact h a ha b hb hab hacta hactb
  | none =>
      cases h2 : findFirst (fun c => !c.active) m with
      | some j =>
          rcases (findFirst_eq_some_iff _ connDefault _ _).1 h2 with ⟨hj, _, _⟩
          have hnone := (findFirst_eq_none_iff (connMatches s t) connDefault m).1 h1
          intro a ha b hb hab hacta hactb
          rw [List.length_set] at ha hb
          rcases eq_or_ne j a with rfl | hja
          · rw [getD_set_self _ _ _ _ hj] at hacta ⊢
            rw [getD_set_ne _ _ _ _ _ hab] at hactb ⊢
            have hb2 := hnone b hb
            simp only [connMatches, Bool.and_eq_true, beq_iff_eq] at hb2
            by_contra hcon
            push_neg at hcon
            rcases hcon with ⟨hs2, ht2⟩
            rw [hactb, hs2.symm, ht2.symm] at hb2
            simp at hb2
          · rcases eq_or_ne j b with rfl | hjb
            · rw [getD_set_ne _ _ _ _ _ hja] at hacta ⊢
              rw [getD_set_self _ _ _ _ hj] at hactb ⊢
              have ha2 := hnone a ha
              simp only [connMatches, Bool.and_eq_true, beq_iff_eq] at ha2
              by_contra hcon
              push_neg at hcon
              rcases hcon with ⟨hs2, ht2⟩
              rw [hacta, hs2, ht2] at ha2
              simp at ha2
            · rw [getD_set_ne _ _ _ _ _ hja] at hacta ⊢
              rw [getD_set_ne _ _ _ _ _ hjb] at hactb ⊢
              exact h a ha b hb hab hacta hactb
      | none =>
          exact h

lemma matrixUnique_clear_connection (m : List ModulationConnection)
    (s : ModulationSource) (t : ModulationTarget) (h : matrixUnique m) :
    matrixUnique (clear_connection m s t) := by
  rw [clear_connection]
  cases h1 : findFirst (connMatches s t) m with
  | some j =>
      rcases (findFirst_eq_some_iff _ connDefault _ _).1 h1 with ⟨hj, _, _⟩
      intro a ha b hb hab hacta hactb
      rw [List.length_set] at ha hb
      rcases eq_or_ne j a with rfl | hja
      · rw [getD_set_self _ _ _ _ hj] at hacta
        simp at hacta
      · rcases eq_or_ne j b with rfl | hjb
        · rw [getD_set_self _ _ _ _ hj] at hactb
          simp at hactb
        · rw [getD_set_ne _ _ _ _ _ hja] at hacta ⊢
          rw [getD_set_ne _ _ _ _ _ hjb] at hactb ⊢
          exact h a ha b hb hab hacta hactb
  | none => exact h

lemma matrixUnique_clear_all (m : List ModulationConnection) :
    matrixUnique (clear_all m) := by
  intro a ha b hb hab hacta _
  exfalso
  rw [clear_all, List.length_map] at ha
  rw [clear_all, List.getD_eq_getElem?_getD, List.getElem?_map,
    List.getElem?_eq_getElem ha] at hacta
  simp at hacta

/-- C6: `set_connection` semantics. (1) If an active `(s, t)` entry exists,
the first one has its intensity updated in place; (2) otherwise the first
inactive slot is activated with `(s, t, intensity)`; (3) when all 16 slots
hold active connections (with pairwise-distinct pairs) and `(s, t)` matches
none of them, the call leaves the table unchanged; (4) consequently every
reachable matrix state has at most one active entry per `(source, target)`
pair. -/
theorem C6_set_connection_semantics :
    (∀ (m : List ModulationConnection) (s : ModulationSource) (t : ModulationTarget)
        (i : ℚ) (j : Nat), j < m.length →
        connMatches s t (m.getD j connDefault) = true →
        (∀ k, k < j → connMatches s t (m.getD k connDefault) = false) →
        set_connection m s t i = m.set j { m.getD j connDefault with intensity := i }) ∧
    (∀ (m : List ModulationConnection) (s : ModulationSource) (t : ModulationTarget)
        (i : ℚ) (j : Nat),
        (∀ k, k < m.length → connMatches s t (m.getD k connDefault) = false) →
        j < m.length → (m.getD j connDefault).active = false →
        (∀ k, k < j → (m.getD k connDefault).active = true) →
        set_connection m s t i =
          m.set j { source := s, target := t, intensity := i, active := true }) ∧
    (∀ (m : List ModulationConnection) (s : ModulationSource) (t : ModulationTarget)
        (i : ℚ),
        m.length = MAX_CONNECTIONS →
        (∀ k, k < m.length → (m.getD k connDefault).active = true) →
        matrixUnique m →
        (∀ k, k < m.length →
          (m.getD k connDefault).source ≠ s ∨ (m.getD k connDefault).target ≠ t) →
        set_connection m s t i = m) ∧
    (∀ m, MatrixReach m → matrixUnique m) := by
  refine ⟨?_, ?_, ?_, ?_⟩
  · intro m s t i j hj hpj hfirst
    have h1 : findFirst (connMatches s t) m = some j :=
      (findFirst_eq_some_iff _ connDefault _ _).2 ⟨hj, hpj, hfirst⟩
    rw [set_connection, h1]
  · intro m s t i j hnone hj hinact hbefore
    have h1 : findFirst (connMatches s t) m = none :=
      (findFirst_eq_none_iff _ connDefault _).2 hnone
    have h2 : findFirst (fun c => !c.active) m = some j := by
      have hj2 : (!(m.getD j connDefault).active) = true := by
        rw [hinact]
        rfl
      refine (findFirst_eq_some_iff _ connDefault _ _).2 ⟨hj, hj2, ?_⟩
      intro k hk
      show (!(m.getD k connDefault).active) = false
      rw [hbefore k hk]
      rfl
    rw [set_connection, h1, h2]
  · intro m s t i _ hall _ hdiff
    have h1 : findFirst (connMatches s t) m = none := by
      refine (findFirst_eq_none_iff _ connDefault _).2 ?_
      intro k hk
      rcases hdiff k hk with hs | ht
      · exact connMatches_false_of_source s t _ hs
      · exact connMatches_false_of_target s t _ ht
    have h2 : findFirst (fun c => !(c.active)) m = none := by
      refine (findFirst_eq_none_iff _ connDefault _).2 ?_
      intro k hk
      show (!(m.getD k connDefault).active) = false
      rw [hall k hk]
      rfl
    rw [set_connection, h1, h2]
  · intro m h
    induction h with
    | init => exact matrixUnique_init
    | set h s t i ih => exact matrixUnique_set_connection _ s t i ih
    | clear h s t ih => exact matrixUnique_clear_connection _ s t ih
    | clearAll h ih => exact matrixUnique_clear_all _

/-- Witness for C6: each conjunct of the theorem applied at a concrete
matrix: in-place update on `exampleMatrixOne`, first-free insertion on the
fresh matrix, the no-op on the full 16-entry matrix, and uniqueness of the
fresh matrix. -/
theorem C6_set_connection_semantics_witness :
    (connMatches .Envelope .Amplitude (exampleMatrixOne.getD 0 connDefault) = true ∧
      set_connection exampleMatrixOne .Envelope .Amplitude 2 =
        exampleMatrixOne.set 0 { exampleMatrixOne.getD 0 connDefault with intensity := 2 }) ∧
    ((matrixInit.getD 0 connDefault).active = false ∧
      set_connection matrixInit .LFO .Cutoff 3 =
        matrixInit.set 0 { source := .LFO, target := .Cutoff, intensity := 3, active := true }) ∧
    ((∀ k, k < exampleMatrixFull.length → (exampleMatrixFull.getD k connDefault).active = true) ∧
      set_connection exampleMatrixFull .Envelope .Amplitude 5 = exampleMatrixFull) ∧
    matrixUnique matrixInit :=
  ⟨⟨by decide,
      C6_set_connection_semantics.1 exampleMatrixOne .Envelope .Amplitude 2 0 (by decide)
        (by decide) (fun k hk => absurd hk (Nat.not_lt_zero k))⟩,
    ⟨by decide,
      C6_set_connection_semantics.2.1 matrixInit .LFO .Cutoff 3 0 (by decide) (by decide)
        (by decide) (fun k hk => absurd hk (Nat.not_lt_zero k))⟩,
    ⟨by decide,
      C6_set_connection_semantics.2.2.1 exampleMatrixFull .Envelope .Amplitude 5 (by decide)
        (by decide) (matrixUnique_of_matrixUniqueB _ (by decide)) (by decide)⟩,
    C6_set_connection_semantics.2.2.2 matrixInit MatrixReach.init⟩

lemma connMatches_true_iff (s : ModulationSource) (t : ModulationTarget)
    (c : ModulationConnection) :
    connMatches s t c = true ↔ c.active = true ∧ c.source = s ∧ c.target = t := by
  simp [connMatches, and_assoc]

/-- C4 (amended): `Voice::note_on` re-hardwires the default VCA connection
whenever the Amplitude modulation sum at the cached source values is
≤ 0.001 and the matrix has a free slot or an active Envelope→Amplitude
entry: after `note_on` the matrix holds an active Envelope→Amplitude entry
at intensity 1. -/
theorem C4_default_connection_reinsert (v : VoiceState) (f : ℚ)
    (hsum : sum_for_target v.matrix .Amplitude v.csv ≤ 0.001)
    (hfree : ∃ j, j < v.matrix.length ∧
      ((v.matrix.getD j connDefault).active = false ∨
        connMatches .Envelope .Amplitude (v.matrix.getD j connDefault) = true)) :
    ∃ j, j < (v.note_on f).matrix.length ∧
      ((v.note_on f).matrix.getD j connDefault).active = true ∧
      ((v.note_on f).matrix.getD j connDefault).source = .Envelope ∧
      ((v.note_on f).matrix.getD j connDefault).target = .Amplitude ∧
      ((v.note_on f).matrix.getD j connDefault).intensity = 1 := by
  have hm : (v.note_on f).matrix = set_connection v.matrix .Envelope .Amplitude 1.0 := by
    rw [VoiceState.note_on]
    simp only [if_pos hsum]
  rw [hm, set_connection]
  cases h1 : findFirst (connMatches .Envelope .Amplitude) v.matrix with
  | some j =>
      rcases (findFirst_eq_some_iff _ connDefault _ _).1 h1 with ⟨hj, hpj, _⟩
      rcases (connMatches_true_iff _ _ _).1 hpj with ⟨hact, hsrc, htgt⟩
      refine ⟨j, ?_, ?_⟩
      · rw [List.length_set]
        exact hj
      · rw [getD_set_self _ _ _ _ hj]
        exact ⟨hact, hsrc, htgt, by norm_num⟩
  | none =>
      cases h2 : findFirst (fun c => !c.active) v.matrix with
      | some j =>
          rcases (findFirst_eq_some_iff _ connDefault _ _).1 h2 with ⟨hj, _, _⟩
          refine ⟨j, ?_, ?_⟩
          · rw [List.length_set]
            exact hj
          · rw [getD_set_self _ _ _ _ hj]
            exact ⟨rfl, rfl, rfl, by norm_num⟩
      | none =>
          exfalso
          rcases hfree with ⟨j, hj, hinact | hmatch⟩
          · have hall := (findFirst_eq_none_iff (fun c => !c.active) connDefault _).1 h2 j hj
            have : (!(v.matrix.getD j connDefault).active) = false := hall
            rw [hinact] at this
            cases this
          · have hall :=
              (findFirst_eq_none_iff (connMatches .Envelope .Amplitude) connDefault _).1 h1 j hj
            rw [hmatch] at hall
            cases hall

/-- Witness for C4, one instance per disjunct of the slot hypothesis: a
voice whose matrix has been fully cleared (all 16 slots inactive, zero
cached source values) regains an active Envelope→Amplitude connection at
intensity 1 from `note_on(440)`; and a voice whose matrix is completely
full but contains an active Envelope→Amplitude entry (at intensity 1/2)
has it restored to intensity 1 in place. -/
theorem C4_default_connection_reinsert_witness :
    (∃ j, j < (voiceCleared.note_on 440).matrix.length ∧
      ((voiceCleared.note_on 440).matrix.getD j connDefault).active = true ∧
      ((voiceCleared.note_on 440).matrix.getD j connDefault).source = .Envelope ∧
      ((voiceCleared.note_on 440).matrix.getD j connDefault).target = .Amplitude ∧
      ((voiceCleared.note_on 440).matrix.getD j connDefault).intensity = 1) ∧
    (∃ j, j < (voiceFullMatch.note_on 440).matrix.length ∧
      ((voiceFullMatch.note_on 440).matrix.getD j connDefault).active = true ∧
      ((voiceFullMatch.note_on 440).matrix.getD j connDefault).source = .Envelope ∧
      ((voiceFullMatch.note_on 440).matrix.getD j connDefault).target = .Amplitude ∧
      ((voiceFullMatch.note_on 440).matrix.getD j connDefault).intensity = 1) :=
  ⟨C4_default_connection_reinsert voiceCleared 440
    (by
      have hz : sum_for_target voiceCleared.matrix .Amplitude voiceCleared.csv = 0 := rfl
      rw [hz]
      norm_num)
    ⟨0, by decide, Or.inl (by decide)⟩,
   C4_default_connection_reinsert voiceFullMatch 440
    (by
      show (0 : ℚ) + (List.replicate 4 (0 : ℚ)).getD 0 0 * (1/2) ≤ 0.001
      norm_num)
    ⟨15, by decide, Or.inr (by decide)⟩⟩

/-- Counterexample for C4 as stated: `voiceLfoAmp` has no active
Envelope→Amplitude entry (the default connection has been cleared), yet
`note_on(440)` does not reinsert it — the guard tests the Amplitude
modulation *sum* (here 1 from the active LFO→Amplitude connection at LFO
source value 1), not the presence of the connection. -/
theorem C4_default_connection_reinsert_counterexample :
    (∀ j, j < voiceLfoAmp.matrix.length →
      connMatches .Envelope .Amplitude (voiceLfoAmp.matrix.getD j connDefault) = false) ∧
    (∀ j, j < (voiceLfoAmp.note_on 440).matrix.length →
      connMatches .Envelope .Amplitude
        ((voiceLfoAmp.note_on 440).matrix.getD j connDefault) = false) := by
  have hsum : sum_for_target voiceLfoAmp.matrix .Amplitude voiceLfoAmp.csv = 1 := by
    show (0 : ℚ) + [(0 : ℚ), 1, 0, 0].getD 1 0 * 1 = 1
    norm_num
  have hm : (voiceLfoAmp.note_on 440).matrix = voiceLfoAmp.matrix := by
    rw [VoiceState.note_on]
    simp only [hsum]
    norm_num
  constructor
  · decide
  · rw [hm]
    decide

lemma process_sample_attack (e : AdsrEnv) (h : e.state = .Attack) :
    e.process_sample =
      if 1 ≤ e.current_level + e.attack_rate then
        (1, { e with current_level := 1, state := .Decay })
      else (e.current_level + e.attack_rate,
        { e with current_level := e.current_level + e.attack_rate }) := by
  rcases e with ⟨sr, st, lvl, a, d, s, r, ar, dr, rr⟩
  subst h
  rfl

lemma process_sample_decay (e : AdsrEnv) (h : e.state = .Decay) :
    e.process_sample =
      if e.current_level - e.decay_rate ≤ e.sustain_level then
        (e.sustain_level, { e with current_level := e.sustain_level, state := .Sustain })
      else (e.current_level - e.decay_rate,
        { e with current_level := e.current_level - e.decay_rate }) := by
  rcases e with ⟨sr, st, lvl, a, d, s, r, ar, dr, rr⟩
  subst h
  rfl

lemma process_sample_sustain (e : AdsrEnv) (h : e.state = .Sustain) :
    e.process_sample = (e.sustain_level, { e with current_level := e.sustain_level }) := by
  rcases e with ⟨sr, st, lvl, a, d, s, r, ar, dr, rr⟩
  subst h
  rfl

lemma process_sample_release (e : AdsrEnv) (h : e.state = .Release) :
    e.process_sample =
      if e.current_level - e.release_rate ≤ 0 then
        (0, { e with current_level := 0, state := .Idle })
      else (e.current_level - e.release_rate,
        { e with current_level := e.current_level - e.release_rate }) := by
  rcases e with ⟨sr, st, lvl, a, d, s, r, ar, dr, rr⟩
  subst h
  rfl

lemma process_sample_idle (e : AdsrEnv) (h : e.state = .Idle) :
    e.process_sample = (0, { e with current_level := 0 }) := by
  rcases e with ⟨sr, st, lvl, a, d, s, r, ar, dr, rr⟩
  subst h
  rfl

lemma AdsrInv_update_rates (e : AdsrEnv)
    (hl0 : 0 ≤ e.current_level) (hl1 : e.current_level ≤ 1)
    (hs0 : 0 ≤ e.sustain_level) (hs1 : e.sustain_level ≤ 1)
    (hsr : 0 < e.sample_rate) (hat : 0 < e.attack_time)
    (hdt : 0 < e.decay_time) (hrt : 0 < e.release_time) :
    AdsrInv e.update_rates := by
  refine ⟨hl0, hl1, hs0, hs1, ?_, ?_, ?_, hsr, hat, hdt, hrt⟩
  · exact div_pos one_pos (mul_pos hat hsr)
  · exact div_nonneg (by linarith) (le_of_lt (mul_pos hdt hsr))
  · exact div_nonneg hs0 (le_of_lt (mul_pos hrt hsr))

lemma clampQ_mem01 (x : ℚ) : 0 ≤ clampQ x 0 1 ∧ clampQ x 0 1 ≤ 1 := by
  rw [clampQ]
  split
  · norm_num
  · split
    · norm_num
    · constructor <;> linarith [show ¬x < 0 by assumption, show ¬(1 : ℚ) < x by assumption]

lemma AdsrInv_step (e : AdsrEnv) (h : AdsrInv e) : AdsrInv (e.process_sample).2 := by
  rcases h with ⟨hl0, hl1, hs0, hs1, har, hdr, hrr, hsr, hat, hdt, hrt⟩
  rw [AdsrInv]
  cases hst : e.state with
  | Attack =>
      rw [process_sample_attack e hst]
      split
      · dsimp only
        exact ⟨by norm_num, by norm_num, hs0, hs1, har, hdr, hrr, hsr, hat, hdt, hrt⟩
      · dsimp only
        refine ⟨by linarith, by linarith [show ¬(1 ≤ e.current_level + e.attack_rate) by assumption],
          hs0, hs1, har, hdr, hrr, hsr, hat, hdt, hrt⟩
  | Decay =>
      rw [process_sample_decay e hst]
      split
      · dsimp only
        exact ⟨hs0, hs1, hs0, hs1, har, hdr, hrr, hsr, hat, hdt, hrt⟩
      · dsimp only
        refine ⟨by linarith [show ¬(e.current_level - e.decay_rate ≤ e.sustain_level) by assumption],
          by linarith, hs0, hs1, har, hdr, hrr, hsr, hat, hdt, hrt⟩
  | Sustain =>
      rw [process_sample_sustain e hst]
      dsimp only
      exact ⟨hs0, hs1, hs0, hs1, har, hdr, hrr, hsr, hat, hdt, hrt⟩
  | Release =>
      rw [process_sample_release e hst]
      split
      · dsimp only
        exact ⟨le_refl 0, by norm_num, hs0, hs1, har, hdr, hrr, hsr, hat, hdt, hrt⟩
      · dsimp only
        refine ⟨by linarith [show ¬(e.current_level - e.release_rate ≤ 0) by assumption],
          by linarith, hs0, hs1, har, hdr, hrr, hsr, hat, hdt, hrt⟩
  | Idle =>
      rw [process_sample_idle e hst]
      dsimp only
      exact ⟨le_refl 0, by norm_num, hs0, hs1, har, hdr, hrr, hsr, hat, hdt, hrt⟩

lemma AdsrInv_reach (e : AdsrEnv) (h : AdsrReach e) : AdsrInv e := by
  induction h with
  | init sr hsr =>
      rw [AdsrEnv.init]
      refine AdsrInv_update_rates _ ?_ ?_ ?_ ?_ ?_ ?_ ?_ ?_ <;> norm_num
      exact hsr
  | gateOn h ih =>
      rcases ih with ⟨hl0, hl1, hs0, hs1, _, _, _, hsr, hat, hdt, hrt⟩
      exact AdsrInv_update_rates _ hl0 hl1 hs0 hs1 hsr hat hdt hrt
  | gateOff h ih =>
      rcases ih with ⟨hl0, hl1, hs0, hs1, har, hdr, hrr, hsr, hat, hdt, hrt⟩
      rw [AdsrEnv.gate_off]
      split
      · exact AdsrInv_update_rates _ hl0 hl1 hs0 hs1 hsr hat hdt hrt
      · exact ⟨hl0, hl1, hs0, hs1, har, hdr, hrr, hsr, hat, hdt, hrt⟩
  | reset h ih =>
      rcases ih with ⟨_, _, hs0, hs1, har, hdr, hrr, hsr, hat, hdt, hrt⟩
      rw [AdsrInv, AdsrEnv.reset]
      dsimp only
      exact ⟨le_refl 0, by norm_num, hs0, hs1, har, hdr, hrr, hsr, hat, hdt, hrt⟩
  | step h ih => exact AdsrInv_step _ ih
  | setAttack h s ih =>
      rcases ih with ⟨hl0, hl1, hs0, hs1, _, _, _, hsr, _, hdt, hrt⟩
      refine AdsrInv_update_rates _ hl0 hl1 hs0 hs1 hsr ?_ hdt hrt
      exact lt_max_of_lt_left (by norm_num)
  | setDecay h s ih =>
      rcases ih with ⟨hl0, hl1, hs0, hs1, _, _, _, hsr, hat, _, hrt⟩
      refine AdsrInv_update_rates _ hl0 hl1 hs0 hs1 hsr hat ?_ hrt
      exact lt_max_of_lt_left (by norm_num)
  | setSustain h l ih =>
      rcases ih with ⟨hl0, hl1, _, _, _, _, _, hsr, hat, hdt, hrt⟩
      rcases clampQ_mem01 l with ⟨hc0, hc1⟩
      exact AdsrInv_update_rates _ hl0 hl1 hc0 hc1 hsr hat hdt hrt
  | setRelease h s ih =>
      rcases ih with ⟨hl0, hl1, hs0, hs1, _, _, _, hsr, hat, hdt, _⟩
      refine AdsrInv_update_rates _ hl0 hl1 hs0 hs1 hsr hat hdt ?_
      exact lt_max_of_lt_left (by norm_num)

/-- C5 (amended): in every reachable envelope state the output sample of
`process_sample` lies in [0, 1]; and provided the current sustain level is
positive, an output of 0 is produced only as the envelope sits in (or
enters) the terminal Idle state. (With sustain level 0 the claim fails:
see the counterexample.) -/
theorem C5_envelope_range_and_zero (e : AdsrEnv) (h : AdsrReach e) :
    0 ≤ (e.process_sample).1 ∧ (e.process_sample).1 ≤ 1 ∧
      (0 < e.sustain_level → (e.process_sample).1 = 0 →
        (e.process_sample).2.state = .Idle) := by
  rcases AdsrInv_reach e h with ⟨hl0, hl1, hs0, hs1, har, hdr, hrr, _, _, _, _⟩
  cases hst : e.state with
  | Attack =>
      rw [process_sample_attack e hst]
      split
      · dsimp only
        refine ⟨by norm_num, by norm_num, ?_⟩
        intro _ hzero
        norm_num at hzero
      · dsimp only
        refine ⟨by linarith, by linarith [show ¬(1 ≤ e.current_level + e.attack_rate) by assumption], ?_⟩
        intro _ hzero
        linarith
  | Decay =>
      rw [process_sample_decay e hst]
      split
      · dsimp only
        refine ⟨hs0, hs1, ?_⟩
        intro hpos hzero
        linarith
      · dsimp only
        refine ⟨by linarith [show ¬(e.current_level - e.decay_rate ≤ e.sustain_level) by assumption],
          by linarith, ?_⟩
        intro hpos hzero
        have hlt := show ¬(e.current_level - e.decay_rate ≤ e.sustain_level) by assumption
        linarith
  | Sustain =>
      rw [process_sample_sustain e hst]
      dsimp only
      refine ⟨hs0, hs1, ?_⟩
      intro hpos hzero
      linarith
  | Release =>
      rw [process_sample_release e hst]
      split
      · exact ⟨le_refl 0, by norm_num, fun _ _ => rfl⟩
      · dsimp only
        refine ⟨by linarith [show ¬(e.current_level - e.release_rate ≤ 0) by assumption],
          by linarith, ?_⟩
        intro _ hzero
        have hlt := show ¬(e.current_level - e.release_rate ≤ 0) by assumption
        linarith
  | Idle =>
      rw [process_sample_idle e hst]
      exact ⟨le_refl 0, by norm_num, fun _ _ => hst⟩

/-- Witness for C5: the freshly constructed envelope at 48 kHz is reachable
and its first output sample is in range (it is 0, and the state is Idle). -/
theorem C5_envelope_range_and_zero_witness :
    0 ≤ ((AdsrEnv.init 48000).process_sample).1 ∧
      ((AdsrEnv.init 48000).process_sample).1 ≤ 1 ∧
      (0 < (AdsrEnv.init 48000).sustain_level →
        ((AdsrEnv.init 48000).process_sample).1 = 0 →
        ((AdsrEnv.init 48000).process_sample).2.state = .Idle) :=
  C5_envelope_range_and_zero (AdsrEnv.init 48000)
    (AdsrReach.init 48000 (by norm_num))

/-- Counterexample for C5 as stated: with the sustain level set to 0 (a
value `set_sustain_level` accepts), the second sample after `gate_on`
already outputs 0 while the envelope sits in the active `Sustain` stage, so
a 0 output does not imply the Idle state. -/
theorem C5_envelope_zero_counterexample :
    ((envSustainZero.process_sample).2.process_sample).1 = 0 ∧
      ((envSustainZero.process_sample).2.process_sample).2.state = .Sustain ∧
      ((envSustainZero.process_sample).2.process_sample).2.is_active = true := by
  have hE : envSustainZero =
      ⟨1, .Attack, 0, 0.01, 0.1, 0, 0.2, 100, 10, 0⟩ := by
    rw [envSustainZero, AdsrEnv.init, AdsrEnv.set_sustain_level, AdsrEnv.gate_on]
    simp only [AdsrEnv.update_rates, clampQ]
    norm_num
  have s1 : AdsrEnv.process_sample ⟨1, .Attack, 0, 0.01, 0.1, 0, 0.2, 100, 10, 0⟩ =
      (1, ⟨1, .Decay, 1, 0.01, 0.1, 0, 0.2, 100, 10, 0⟩) := by
    rw [process_sample_attack _ rfl, if_pos (by norm_num)]
  have s2 : AdsrEnv.process_sample ⟨1, .Decay, 1, 0.01, 0.1, 0, 0.2, 100, 10, 0⟩ =
      (0, ⟨1, .Sustain, 0, 0.01, 0.1, 0, 0.2, 100, 10, 0⟩) := by
    rw [process_sample_decay _ rfl, if_pos (by norm_num)]
  rw [hE, s1]
  dsimp only
  rw [s2]
  exact ⟨rfl, rfl, rfl⟩

lemma mask7_lt (note : Int) : mask7 note < 128 := by
  rw [mask7]
  omega

lemma mask7_ofNat (note : Int) (h0 : 0 ≤ note) (h1 : note < 128) :
    ((mask7 note : Nat) : Int) = note := by
  rw [mask7]
  omega

lemma voiceState_note_on_env (v : VoiceState) (f : ℚ) :
    (v.note_on f).env.state = .Attack := rfl

lemma envGated_of_attack {e : AdsrEnv} (h : e.state = .Attack) : envGated e := Or.inl h

lemma envGated_is_active (e : AdsrEnv) (h : envGated e) : e.is_active = true := by
  rcases h with h | h | h <;> simp [AdsrEnv.is_active, h]

lemma state_idle_of_not_active (e : AdsrEnv) (h : e.is_active = false) :
    e.state = .Idle := by
  rw [AdsrEnv.is_active] at h
  simpa using h

lemma envGated_step (e : AdsrEnv) (h : envGated e) : envGated (e.process_sample).2 := by
  rcases h with h | h | h
  · rw [process_sample_attack e h]
    split
    · exact Or.inr (Or.inl rfl)
    · exact Or.inl h
  · rw [process_sample_decay e h]
    split
    · exact Or.inr (Or.inr rfl)
    · exact Or.inr (Or.inl h)
  · rw [process_sample_sustain e h]
    exact Or.inr (Or.inr h)

lemma lruScan_no_update (l : List VoiceSlot) :
    ∀ (i : Nat) (cand : Int) (oldest : Nat),
      (∀ k, k < l.length → ¬((l.getD k slotDefault).last_note_on_time < oldest)) →
      lruScan l i cand oldest = cand := by
  induction l with
  | nil => intro i cand oldest _; rfl
  | cons s rest ih =>
      intro i cand oldest h
      rw [lruScan]
      rw [if_neg (by simpa using h 0 (by simp))]
      refine ih (i + 1) cand oldest ?_
      intro k hk
      have hkk := h (k + 1) (by simp only [List.length_cons]; omega)
      rwa [List.getD_cons_succ] at hkk

lemma lruScan_strict_min (l : List VoiceSlot) :
    ∀ (i : Nat) (cand : Int) (oldest : Nat) (j : Nat),
      j < l.length →
      (∀ k, k < l.length → k ≠ j →
        (l.getD j slotDefault).last_note_on_time <
          (l.getD k slotDefault).last_note_on_time) →
      (l.getD j slotDefault).last_note_on_time < oldest →
      lruScan l i cand oldest = ((i + j : Nat) : Int) := by
  induction l with
  | nil =>
      intro i cand oldest j hj _ _
      simp at hj
  | cons s rest ih =>
      intro i cand oldest j hj hmin hold
      cases j with
      | zero =>
          rw [List.getD_cons_zero] at hold
          have hrest : ∀ k, k < rest.length →
              ¬((rest.getD k slotDefault).last_note_on_time < s.last_note_on_time) := by
            intro k hk
            have hkk := hmin (k + 1) (by simp only [List.length_cons]; omega) (by omega)
            rw [List.getD_cons_zero, List.getD_cons_succ] at hkk
            omega
          rw [lruScan, if_pos hold,
            lruScan_no_update rest (i + 1) ((i : Nat) : Int) s.last_note_on_time hrest]
          omega
      | succ m =>
          have hjt : (rest.getD m slotDefault).last_note_on_time < s.last_note_on_time := by
            have hkk := hmin 0 (by simp) (by omega)
            rwa [List.getD_cons_zero, List.getD_cons_succ] at hkk
          rw [List.getD_cons_succ] at hold
          have hrec : ∀ (cand2 : Int) (oldest2 : Nat),
              (rest.getD m slotDefault).last_note_on_time < oldest2 →
              lruScan rest (i + 1) cand2 oldest2 = ((i + 1 + m : Nat) : Int) := by
            intro cand2 oldest2 hold2
            refine ih (i + 1) cand2 oldest2 m ?_ ?_ hold2
            · simp only [List.length_cons] at hj
              omega
            · intro k hk hkm
              have hkk := hmin (k + 1) (by simp only [List.length_cons]; omega) (by omega)
              rwa [List.getD_cons_succ, List.getD_cons_succ] at hkk
          rw [lruScan]
          split
          · rw [hrec ((i : Nat) : Int) s.last_note_on_time hjt]
            congr 1
            omega
          · rw [hrec cand oldest hold]
            congr 1
            omega

lemma lruScan_bound (l : List VoiceSlot) :
    ∀ (i : Nat) (cand : Int) (oldest : Nat),
      (cand = -1 ∨ ∃ k : Nat, cand = (k : Int) ∧ k < i) →
      (lruScan l i cand oldest = -1 ∨
        ∃ k : Nat, lruScan l i cand oldest = (k : Int) ∧ k < i + l.length) := by
  induction l with
  | nil =>
      intro i cand oldest h
      rcases h with h | ⟨k, hk1, hk2⟩
      · exact Or.inl h
      · exact Or.inr ⟨k, hk1, by simpa using hk2⟩
  | cons s rest ih =>
      intro i cand oldest h
      rw [lruScan]
      split
      · rcases ih (i + 1) ((i : Nat) : Int) s.last_note_on_time
            (Or.inr ⟨i, rfl, by omega⟩) with h2 | ⟨k, hk1, hk2⟩
        · exact Or.inl h2
        · refine Or.inr ⟨k, hk1, ?_⟩
          simp only [List.length_cons]
          omega
      · rcases h with h | ⟨k, hk1, hk2⟩
        · rcases ih (i + 1) cand oldest (Or.inl h) with h2 | ⟨k, hk1, hk2⟩
          · exact Or.inl h2
          · refine Or.inr ⟨k, hk1, ?_⟩
            simp only [List.length_cons]
            omega
        · rcases ih (i + 1) cand oldest (Or.inr ⟨k, hk1, by omega⟩) with h2 | ⟨k2, hk21, hk22⟩
          · exact Or.inl h2
          · refine Or.inr ⟨k2, hk21, ?_⟩
            simp only [List.length_cons]
            omega

lemma lruCandidate_bound (l : List VoiceSlot) :
    lruCandidate l = -1 ∨ ∃ k : Nat, lruCandidate l = (k : Int) ∧ k < l.length := by
  have h := lruScan_bound l 0 (-1) (2 ^ 64 - 1) (Or.inl rfl)
  simpa [lruCandidate] using h

lemma note_on_retrigger (nf : Int → ℚ) (vm : VoiceManagerState) (note : Int)
    (velocity frequency : ℚ) (hcond : retriggerCond vm note) :
    vm.note_on nf note velocity frequency =
      { vm with
        timestamp_counter := vm.timestamp_counter + 1
        slots := vm.slots.set (vm.note_to_voice_map.getD (mask7 note) (-1)).toNat
          { vm.slots.getD (vm.note_to_voice_map.getD (mask7 note) (-1)).toNat slotDefault with
            last_note_on_time := vm.timestamp_counter + 1
            voice := (vm.slots.getD (vm.note_to_voice_map.getD (mask7 note) (-1)).toNat
              slotDefault).voice.note_on
                (if 0 < frequency then frequency else nf note) } } := by
  rw [retriggerCond] at hcond
  simp only [VoiceManagerState.note_on]
  rw [if_pos hcond]

lemma note_on_idle (nf : Int → ℚ) (vm : VoiceManagerState) (note : Int)
    (velocity frequency : ℚ) (idle : Nat) (hcond : ¬retriggerCond vm note)
    (hidle : findFirst (fun s => !s.voice.is_active) vm.slots = some idle) :
    vm.note_on nf note velocity frequency =
      { vm with
        timestamp_counter := vm.timestamp_counter + 1
        slots := vm.slots.set idle
          { vm.slots.getD idle slotDefault with
            current_note := note
            active := true
            last_note_on_time := vm.timestamp_counter + 1
            voice := (vm.slots.getD idle slotDefault).voice.note_on
              (if 0 < frequency then frequency else nf note) }
        note_to_voice_map := vm.note_to_voice_map.set (mask7 note) ((idle : Nat) : Int) } := by
  rw [retriggerCond] at hcond
  simp only [VoiceManagerState.note_on]
  rw [if_neg hcond, hidle]

lemma note_on_steal (nf : Int → ℚ) (vm : VoiceManagerState) (note : Int)
    (velocity frequency : ℚ) (ci : Nat) (hcond : ¬retriggerCond vm note)
    (hidle : findFirst (fun s => !s.voice.is_active) vm.slots = none)
    (hcand : (match findFirst (fun s => s.voice.env.is_releasing) vm.slots with
      | some r => ((r : Nat) : Int)
      | none => lruCandidate vm.slots) = ((ci : Nat) : Int)) :
    vm.note_on nf note velocity frequency =
      stealResult vm note (if 0 < frequency then frequency else nf note) ci := by
  rw [retriggerCond] at hcond
  simp only [VoiceManagerState.note_on]
  rw [if_neg hcond, hidle]
  dsimp only
  rw [hcand, if_pos (by omega : ((ci : Nat) : Int) ≠ -1)]
  rw [stealResult]
  simp only [Int.toNat_natCast]

lemma note_on_steal_skip (nf : Int → ℚ) (vm : VoiceManagerState) (note : Int)
    (velocity frequency : ℚ) (hcond : ¬retriggerCond vm note)
    (hidle : findFirst (fun s => !s.voice.is_active) vm.slots = none)
    (hcand : (match findFirst (fun s => s.voice.env.is_releasing) vm.slots with
      | some r => ((r : Nat) : Int)
      | none => lruCandidate vm.slots) = -1) :
    vm.note_on nf note velocity frequency = vm := by
  rw [retriggerCond] at hcond
  simp only [VoiceManagerState.note_on]
  rw [if_neg hcond, hidle]
  dsimp only
  rw [hcand, if_neg (by omega : ¬((-1 : Int) ≠ -1))]

lemma getD_replicate (n : Nat) (a d : α) (k : Nat) (h : k < n) :
    (List.replicate n a).getD k d = a := by
  rw [List.getD_eq_getElem?_getD, List.getElem?_replicate_of_lt h]
  rfl

lemma mask7_cast (p : Nat) (h : p < 128) : mask7 ((p : Nat) : Int) = p := by
  rw [mask7]
  omega

lemma VMInv_init (sample_rate : ℚ) : VMInv (VoiceManagerState.init sample_rate) := by
  refine ⟨by simp [VoiceManagerState.init], by simp [VoiceManagerState.init], ?_⟩
  intro p i hp hm
  exfalso
  rw [VoiceManagerState.init] at hm
  dsimp only at hm
  rw [getD_replicate 128 (-1) (-1) p hp] at hm
  omega

lemma VMInv_note_off (vm : VoiceManagerState) (note : Int) (h : VMInv vm) :
    VMInv (vm.note_off note) := by
  rcases h with ⟨hlen, hmlen, hmap⟩
  rw [VoiceManagerState.note_off]
  split
  case isTrue hcond =>
    rcases hcond with ⟨hne, hact, hnote⟩
    refine ⟨by simpa [List.length_set] using hlen,
      by simpa [List.length_set] using hmlen, ?_⟩
    intro p2 j hp2 hm2
    dsimp only at hm2 ⊢
    by_cases hpp : p2 = mask7 note
    · exfalso
      subst hpp
      rw [getD_set_self _ _ _ _ (by rw [hmlen]; exact mask7_lt note)] at hm2
      omega
    · rw [getD_set_ne _ _ _ _ _ (fun hx => hpp hx.symm)] at hm2
      rcases hmap p2 j hp2 hm2 with ⟨hj, hact2, hnote2, hgat2⟩
      have hij : (vm.note_to_voice_map.getD (mask7 note) (-1)).toNat ≠ j := by
        intro hij
        rw [hij] at hnote
        rw [hnote2] at hnote
        apply hpp
        rw [← hnote, mask7_cast p2 hp2]
      rw [getD_set_ne _ _ _ _ _ hij]
      exact ⟨hj, hact2, hnote2, hgat2⟩
  case isFalse => exact ⟨hlen, hmlen, hmap⟩

lemma VMInv_pullSlotStep (vm : VoiceManagerState) (i : Nat) (h : VMInv vm) :
    VMInv (pullSlotStep vm i) := by
  rcases h with ⟨hlen, hmlen, hmap⟩
  rw [pullSlotStep]
  split
  case isTrue hact =>
    split
    case isTrue hvact =>
      refine ⟨by simpa [List.length_set] using hlen, hmlen, ?_⟩
      intro p2 j hp2 hm2
      dsimp only at hm2 ⊢
      rcases hmap p2 j hp2 hm2 with ⟨hj, hact2, hnote2, hgat2⟩
      by_cases hij : i = j
      · subst hij
        rw [getD_set_self _ _ _ _ (by rw [hlen]; exact hj)]
        exact ⟨hj, hact2, hnote2, envGated_step _ hgat2⟩
      · rw [getD_set_ne _ _ _ _ _ hij]
        exact ⟨hj, hact2, hnote2, hgat2⟩
    case isFalse hvact =>
      refine ⟨by simpa [List.length_set] using hlen, ?_, ?_⟩
      · dsimp only
        split
        · simpa [List.length_set] using hmlen
        · exact hmlen
      · intro p2 j hp2 hm2
        dsimp only at hm2 ⊢
        have hm2' : vm.note_to_voice_map.getD p2 (-1) = ((j : Nat) : Int) := by
          revert hm2
          split
          case isTrue hcl =>
            intro hm2
            by_cases hqq : p2 = mask7 (vm.slots.getD i slotDefault).current_note
            · exfalso
              subst hqq
              rw [getD_set_self _ _ _ _ (by rw [hmlen]; exact mask7_lt _)] at hm2
              omega
            · rwa [getD_set_ne _ _ _ _ _ (fun hx => hqq hx.symm)] at hm2
          case isFalse => exact fun hm2 => hm2
        rcases hmap p2 j hp2 hm2' with ⟨hj, hact2, hnote2, hgat2⟩
        have hij : i ≠ j := by
          intro hij
          subst hij
          have := envGated_is_active _ hgat2
          exact absurd this (by simpa [VoiceState.is_active] using hvact)
        rw [getD_set_ne _ _ _ _ _ hij]
        exact ⟨hj, hact2, hnote2, hgat2⟩
  case isFalse => exact ⟨hlen, hmlen, hmap⟩

lemma VMInv_note_on (nf : Int → ℚ) (vm : VoiceManagerState) (note : Int)
    (velocity frequency : ℚ) (h0 : 0 ≤ note) (h1 : note < 128) (h : VMInv vm) :
    VMInv (vm.note_on nf note velocity frequency) := by
  rcases h with ⟨hlen, hmlen, hmap⟩
  by_cases hcond : retriggerCond vm note
  · rw [note_on_retrigger nf vm note velocity frequency hcond]
    refine ⟨by simpa [List.length_set] using hlen, hmlen, ?_⟩
    intro p2 j hp2 hm2
    dsimp only at hm2 ⊢
    rcases hmap p2 j hp2 hm2 with ⟨hj, hact2, hnote2, hgat2⟩
    by_cases hij : (vm.note_to_voice_map.getD (mask7 note) (-1)).toNat = j
    · rw [hij, getD_set_self _ _ _ _ (by rw [hlen]; exact hj)]
      exact ⟨hj, hact2, hnote2, envGated_of_attack rfl⟩
    · rw [getD_set_ne _ _ _ _ _ hij]
      exact ⟨hj, hact2, hnote2, hgat2⟩
  · cases hfi : findFirst (fun s => !s.voice.is_active) vm.slots with
    | some idle =>
        rw [note_on_idle nf vm note velocity frequency idle hcond hfi]
        rcases (findFirst_eq_some_iff _ slotDefault _ _).1 hfi with ⟨hidlen, hidleP, _⟩
        have hidleNact : (vm.slots.getD idle slotDefault).voice.is_active = false := by
          have h2 : (!(vm.slots.getD idle slotDefault).voice.is_active) = true := hidleP
          cases hb : (vm.slots.getD idle slotDefault).voice.is_active
          · rfl
          · rw [hb] at h2
            cases h2
        refine ⟨by simpa [List.length_set] using hlen,
          by simpa [List.length_set] using hmlen, ?_⟩
        intro p2 j hp2 hm2
        dsimp only at hm2 ⊢
        by_cases hpp : p2 = mask7 note
        · subst hpp
          rw [getD_set_self _ _ _ _ (by rw [hmlen]; exact mask7_lt note)] at hm2
          obtain rfl : j = idle := by omega
          rw [getD_set_self _ _ _ _ hidlen]
          refine ⟨by rw [← hlen]; exact hidlen, rfl, ?_, envGated_of_attack rfl⟩
          exact (mask7_ofNat note h0 h1).symm
        · rw [getD_set_ne _ _ _ _ _ (fun hx => hpp hx.symm)] at hm2
          rcases hmap p2 j hp2 hm2 with ⟨hj, hact2, hnote2, hgat2⟩
          have hij : idle ≠ j := by
            intro hx
            subst hx
            have h3 := envGated_is_active _ hgat2
            have h4 : (vm.slots.getD idle slotDefault).voice.env.is_active = false :=
              hidleNact
            rw [h4] at h3
            cases h3
          rw [getD_set_ne _ _ _ _ _ hij]
          exact ⟨hj, hact2, hnote2, hgat2⟩
    | none =>
        have hctype : (match findFirst (fun s => s.voice.env.is_releasing) vm.slots with
            | some r => ((r : Nat) : Int)
            | none => lruCandidate vm.slots) = -1 ∨
            ∃ ci, (match findFirst (fun s => s.voice.env.is_releasing) vm.slots with
              | some r => ((r : Nat) : Int)
              | none => lruCandidate vm.slots) = ((ci : Nat) : Int) ∧
              ci < vm.slots.length := by
          cases hfr : findFirst (fun s => s.voice.env.is_releasing) vm.slots with
          | some r =>
              rcases (findFirst_eq_some_iff _ slotDefault _ _).1 hfr with ⟨hrlen, _, _⟩
              exact Or.inr ⟨r, rfl, hrlen⟩
          | none =>
              rcases lruCandidate_bound vm.slots with hl | ⟨k, hk1, hk2⟩
              · exact Or.inl hl
              · exact Or.inr ⟨k, hk1, hk2⟩
        rcases hctype with hc | ⟨ci, hc, hcilen⟩
        · rw [note_on_steal_skip nf vm note velocity frequency hcond hfi hc]
          exact ⟨hlen, hmlen, hmap⟩
        · rw [note_on_steal nf vm note velocity frequency ci hcond hfi hc, stealResult]
          have hm1len :
              (if (vm.slots.getD ci slotDefault).current_note ≠ -1 then
                vm.note_to_voice_map.set (mask7 (vm.slots.getD ci slotDefault).current_note) (-1)
              else vm.note_to_voice_map).length = 128 := by
            split
            · simpa [List.length_set] using hmlen
            · exact hmlen
          refine ⟨by simpa [List.length_set] using hlen,
            by simpa [List.length_set] using hm1len, ?_⟩
          intro p2 j hp2 hm2
          by_cases hpp : p2 = mask7 note
          · subst hpp
            rw [getD_set_self _ _ _ _ (by rw [hm1len]; exact mask7_lt note)] at hm2
            obtain rfl : j = ci := by omega
            rw [getD_set_self _ _ _ _ hcilen]
            refine ⟨by rw [← hlen]; exact hcilen, rfl, ?_, envGated_of_attack rfl⟩
            exact (mask7_ofNat note h0 h1).symm
          · rw [getD_set_ne _ _ _ _ _ (fun hx => hpp hx.symm)] at hm2
            have hold : vm.note_to_voice_map.getD p2 (-1) = ((j : Nat) : Int) ∧
                (vm.slots.getD ci slotDefault).current_note ≠ ((p2 : Nat) : Int) := by
              revert hm2
              split
              case isTrue hone =>
                intro hm2
                by_cases hqq : p2 = mask7 (vm.slots.getD ci slotDefault).current_note
                · exfalso
                  subst hqq
                  rw [getD_set_self _ _ _ _ (by rw [hmlen]; exact mask7_lt _)] at hm2
                  omega
                · rw [getD_set_ne _ _ _ _ _ (fun hx => hqq hx.symm)] at hm2
                  refine ⟨hm2, ?_⟩
                  intro hx
                  apply hqq
                  rw [hx, mask7_cast p2 hp2]
              case isFalse hone =>
                intro hm2
                refine ⟨hm2, ?_⟩
                intro hx
                rw [hx] at hone
                omega
            rcases hold with ⟨hm2', hone2⟩
            rcases hmap p2 j hp2 hm2' with ⟨hj, hact2, hnote2, hgat2⟩
            have hij : ci ≠ j := by
              intro hx
              subst hx
              exact hone2 hnote2
            rw [getD_set_ne _ _ _ _ _ hij]
            exact ⟨hj, hact2, hnote2, hgat2⟩

lemma VMInv_foldl_pull (l : List Nat) (vm : VoiceManagerState) (h : VMInv vm) :
    VMInv (l.foldl pullSlotStep vm) := by
  induction l generalizing vm with
  | nil => exact h
  | cons a rest ih => exact ih (pullSlotStep vm a) (VMInv_pullSlotStep vm a h)

lemma VMInv_do_pull (vm : VoiceManagerState) (h : VMInv vm) : VMInv vm.do_pull :=
  VMInv_foldl_pull _ vm h

/-- C1 (amended): in every state reachable from the fresh `VoiceManager`
through `note_on`, `note_off` and block renders on MIDI pitches, every
non-negative map entry `note_to_voice_map[p] = i` points to a slot with
`current_note = p`, `active = true` (and a gated envelope). The converse
uniqueness clause of the original claim — no *other* slot holds
`current_note = p` with `active = true` — is false on the code: see the
counterexample. -/
theorem C1_note_slot_invariant (nf : Int → ℚ) (vm : VoiceManagerState)
    (h : VMReach nf vm) :
    ∀ p i, p < 128 → vm.note_to_voice_map.getD p (-1) = ((i : Nat) : Int) →
      i < MAX_VOICES ∧
      (vm.slots.getD i slotDefault).active = true ∧
      (vm.slots.getD i slotDefault).current_note = ((p : Nat) : Int) ∧
      envGated (vm.slots.getD i slotDefault).voice.env := by
  have hinv : VMInv vm := by
    induction h with
    | init sr => exact VMInv_init sr
    | noteOn h note h0 h1 vel freq ih => exact VMInv_note_on nf _ note vel freq h0 h1 ih
    | noteOff h note h0 h1 ih => exact VMInv_note_off _ note ih
    | pull h ih => exact VMInv_do_pull _ ih
  exact hinv.2.2

/-- Witness for C1: after `note_on 60` on the fresh manager, pitch 60 maps
to slot 0 and the theorem yields the matching-slot facts there. -/
theorem C1_note_slot_invariant_witness :
    (((VoiceManagerState.init 48000).note_on nfConst 60 1 440).note_to_voice_map.getD 60 (-1)
      = ((0 : Nat) : Int)) ∧
    0 < MAX_VOICES ∧
    ((((VoiceManagerState.init 48000).note_on nfConst 60 1 440).slots.getD 0
      slotDefault).active = true) ∧
    ((((VoiceManagerState.init 48000).note_on nfConst 60 1 440).slots.getD 0
      slotDefault).current_note = ((60 : Nat) : Int)) ∧
    envGated ((((VoiceManagerState.init 48000).note_on nfConst 60 1 440).slots.getD 0
      slotDefault).voice.env) :=
  ⟨by decide,
    C1_note_slot_invariant nfConst _
      (VMReach.noteOn (VMReach.init 48000) 60 (by decide) (by decide) 1 440)
      60 0 (by decide) (by decide)⟩

/-- Counterexample for C1 as stated: in the reachable state after
`note_on 60`, `note_off 60`, `note_on 60`, pitch 60 maps to slot 1, yet
slot 0 — a different slot — still satisfies `current_note = 60` and
`active = true` (its voice is releasing, awaiting lazy reclamation), so the
"no other slot" clause of the claim fails. -/
theorem C1_note_slot_bijection_counterexample :
    vmDoubleSixty.note_to_voice_map.getD 60 (-1) = ((1 : Nat) : Int) ∧
    (vmDoubleSixty.slots.getD 1 slotDefault).active = true ∧
    (vmDoubleSixty.slots.getD 1 slotDefault).current_note = 60 ∧
    (vmDoubleSixty.slots.getD 0 slotDefault).active = true ∧
    (vmDoubleSixty.slots.getD 0 slotDefault).current_note = 60 := by
  decide

/-- C2: steal priority. If the pitch is unmapped and no slot's voice is
inactive, then (a) when some slot is releasing, `note_on` steals the first
releasing slot; (b) when none is releasing, it steals the slot with the
(unique) minimum `last_note_on_time`. In both cases the effect is
`stealResult`: the previous pitch's map entry is cleared, the voice is
reset, its pan is reset to 0, and the slot is claimed (current note,
active flag, fresh timestamp, map entry, `voice.note_on`). -/
theorem C2_steal_priority (nf : Int → ℚ) (vm : VoiceManagerState) (note : Int)
    (velocity frequency : ℚ)
    (hlen : vm.slots.length = 16)
    (hunmapped : vm.note_to_voice_map.getD (mask7 note) (-1) = -1)
    (hnoidle : ∀ k, k < 16 → (vm.slots.getD k slotDefault).voice.is_active = true) :
    (∀ j, j < 16 → (vm.slots.getD j slotDefault).voice.env.is_releasing = true →
      (∀ k, k < j → (vm.slots.getD k slotDefault).voice.env.is_releasing = false) →
      vm.note_on nf note velocity frequency =
        stealResult vm note (if 0 < frequency then frequency else nf note) j) ∧
    ((∀ k, k < 16 → (vm.slots.getD k slotDefault).voice.env.is_releasing = false) →
      ∀ j, j < 16 →
      (∀ k, k < 16 → k ≠ j →
        (vm.slots.getD j slotDefault).last_note_on_time <
          (vm.slots.getD k slotDefault).last_note_on_time) →
      (vm.slots.getD j slotDefault).last_note_on_time < 2 ^ 64 - 1 →
      vm.note_on nf note velocity frequency =
        stealResult vm note (if 0 < frequency then frequency else nf note) j) := by
  have hcond : ¬retriggerCond vm note := by
    rw [retriggerCond]
    intro hc
    exact hc.1 hunmapped
  have hfi : findFirst (fun s => !s.voice.is_active) vm.slots = none := by
    refine (findFirst_eq_none_iff _ slotDefault _).2 ?_
    intro k hk
    rw [hlen] at hk
    show (!(vm.slots.getD k slotDefault).voice.is_active) = false
    rw [hnoidle k hk]
    rfl
  constructor
  · intro j hj hrel hfirst
    have hfr : findFirst (fun s => s.voice.env.is_releasing) vm.slots = some j :=
      (findFirst_eq_some_iff _ slotDefault _ _).2 ⟨by rw [hlen]; exact hj, hrel, hfirst⟩
    exact note_on_steal nf vm note velocity frequency j hcond hfi (by rw [hfr])
  · intro hnorel j hj hmin hcap
    have hfr : findFirst (fun s => s.voice.env.is_releasing) vm.slots = none := by
      refine (findFirst_eq_none_iff _ slotDefault _).2 ?_
      intro k hk
      rw [hlen] at hk
      exact hnorel k hk
    have hlru : lruCandidate vm.slots = ((j : Nat) : Int) := by
      rw [lruCandidate]
      have hj2 : j < vm.slots.length := by
        rw [hlen]
        exact hj
      have hmin2 : ∀ k, k < vm.slots.length → k ≠ j →
          (vm.slots.getD j slotDefault).last_note_on_time <
            (vm.slots.getD k slotDefault).last_note_on_time := by
        intro k hk hkj
        rw [hlen] at hk
        exact hmin k hk hkj
      have hres := lruScan_strict_min vm.slots 0 (-1) (2 ^ 64 - 1) j hj2 hmin2 hcap
      simpa using hres
    refine note_on_steal nf vm note velocity frequency j hcond hfi ?_
    rw [hfr]
    exact hlru

/-- Witness for C2: on `vmReleasing` (16 busy voices, slot 2 releasing) a
`note_on 90` steals slot 2; on `vmOldest` (16 busy voices, oldest at
slot 15) it steals slot 15. -/
theorem C2_steal_priority_witness :
    (vmReleasing.slots.getD 2 slotDefault).voice.env.is_releasing = true ∧
    (∀ k, k < 16 → (vmReleasing.slots.getD k slotDefault).voice.is_active = true) ∧
    vmReleasing.note_on nfConst 90 1 440 =
      stealResult vmReleasing 90 (if (0 : ℚ) < 440 then 440 else nfConst 90) 2 ∧
    (∀ k, k < 16 → (vmOldest.slots.getD k slotDefault).voice.env.is_releasing = false) ∧
    vmOldest.note_on nfConst 90 1 440 =
      stealResult vmOldest 90 (if (0 : ℚ) < 440 then 440 else nfConst 90) 15 :=
  ⟨by decide, by decide,
    (C2_steal_priority nfConst vmReleasing 90 1 440 (by decide) (by decide)
      (by decide)).1 2 (by decide) (by decide) (by decide),
    by decide,
    (C2_steal_priority nfConst vmOldest 90 1 440 (by decide) (by decide)
      (by decide)).2 (by decide) 15 (by decide) (by decide) (by decide)⟩

/-- C7: MIDI running status. For a two-data-byte status `s` (high nibble
8, 9, A, B or E) followed by four data bytes, `parse` from the initial
state emits exactly the two events `(s, d1, d2)` and `(s, d1b, d2b)` — the
second via running status, without a repeated status byte. -/
theorem C7_running_status (s d1 d2 d1b d2b off : Nat)
    (hs : s / 16 = 8 ∨ s / 16 = 9 ∨ s / 16 = 10 ∨ s / 16 = 11 ∨ s / 16 = 14)
    (h1 : d1 < 128) (h2 : d2 < 128) (h3 : d1b < 128) (h4 : d2b < 128) :
    (midiParse off midiParserInit [s, d1, d2, d1b, d2b]).2 =
      [⟨s, d1, d2, off⟩, ⟨s, d1b, d2b, off⟩] := by
  have hs128 : 128 ≤ s := by rcases hs with h | h | h | h | h <;> omega
  have hs248 : ¬(248 ≤ s) := by rcases hs with h | h | h | h | h <;> omega
  have hexp : ¬(getExpectedDataBytes s = 1) := by
    rcases hs with h | h | h | h | h <;> simp [getExpectedDataBytes, h]
  have e1 : parseByte off midiParserInit s =
      (⟨.WaitingForData1, s, s, 0⟩, none) := by
    rw [parseByte, if_pos hs128, if_neg hs248]
    rfl
  have e2 : parseByte off (⟨.WaitingForData1, s, s, 0⟩ : MidiParserState) d1 =
      (⟨.WaitingForData2, s, s, d1⟩, none) := by
    rw [parseByte, if_neg (by omega : ¬(128 ≤ d1))]
    dsimp only
    rw [if_neg (by simp), if_neg hexp]
  have e3 : parseByte off (⟨.WaitingForData2, s, s, d1⟩ : MidiParserState) d2 =
      (⟨.WaitingForStatus, s, s, d1⟩, some ⟨s, d1, d2, off⟩) := by
    rw [parseByte, if_neg (by omega : ¬(128 ≤ d2))]
    dsimp only
    rw [if_neg (by simp)]
  have e4 : parseByte off (⟨.WaitingForStatus, s, s, d1⟩ : MidiParserState) d1b =
      (⟨.WaitingForData2, s, s, d1b⟩, none) := by
    rw [parseByte, if_neg (by omega : ¬(128 ≤ d1b))]
    dsimp only
    rw [if_pos ⟨rfl, (show s ≠ 0 by omega)⟩]
    dsimp only
    rw [if_neg hexp]
  have e5 : parseByte off (⟨.WaitingForData2, s, s, d1b⟩ : MidiParserState) d2b =
      (⟨.WaitingForStatus, s, s, d1b⟩, some ⟨s, d1b, d2b, off⟩) := by
    rw [parseByte, if_neg (by omega : ¬(128 ≤ d2b))]
    dsimp only
    rw [if_neg (by simp)]
  simp only [midiParse, List.foldl_cons, List.foldl_nil]
  rw [e1]
  dsimp only
  rw [e2]
  dsimp only
  rw [e3]
  dsimp only
  rw [e4]
  dsimp only
  rw [e5]
  simp

/-- Witness for C7: the spec's scenario bytes `0x90 0x43 0x64 0x45 0x64`
(note-on G4 then A4 at velocity 100, the second by running status). -/
theorem C7_running_status_witness :
    ((144 : Nat) / 16 = 8 ∨ (144 : Nat) / 16 = 9 ∨ (144 : Nat) / 16 = 10 ∨
      (144 : Nat) / 16 = 11 ∨ (144 : Nat) / 16 = 14) ∧
    (midiParse 7 midiParserInit [144, 67, 100, 69, 100]).2 =
      [⟨144, 67, 100, 7⟩, ⟨144, 69, 100, 7⟩] :=
  ⟨by decide,
    C7_running_status 144 67 100 69 100 7 (by decide) (by decide) (by decide)
      (by decide) (by decide)⟩

/-- C9: invalid note-name atomicity. A name on which the `Note`
constructor throws (invalid letter, unknown accidental combination, or
missing / unparsable octave) makes `engine_note_on_name` return `-1` with
the engine state unchanged (no exception escapes: the model is total); a
valid spelling returns 0 and calls the pitch variant of `note_on` with the
tuned frequency. The concrete conjuncts pin the parser down on
representatives of each class. -/
theorem C9_note_name_atomicity (nf tuning : Int → ℚ) :
    (∀ (vm : VoiceManagerState) (name : String) (v : ℚ),
      noteNameToMidi name = none →
      engine_note_on_name nf tuning vm name v = (-1, vm)) ∧
    (∀ (vm : VoiceManagerState) (name : String) (v : ℚ) (m : Int),
      noteNameToMidi name = some m →
      engine_note_on_name nf tuning vm name v = (0, vm.note_on nf m v (tuning m))) ∧
    noteNameToMidi "A4" = some 69 ∧
    noteNameToMidi "C#4" = some 61 ∧
    noteNameToMidi "Gb3" = some 54 ∧
    noteNameToMidi "H4" = none ∧
    noteNameToMidi "Cb4" = none ∧
    noteNameToMidi "A" = none ∧
    noteNameToMidi "A#" = none := by
  refine ⟨?_, ?_, by decide, by decide, by decide, by decide, by decide, by decide,
    by decide⟩
  · intro vm name v h
    rw [engine_note_on_name, h]
  · intro vm name v m h
    rw [engine_note_on_name, h]

/-- Witness for C9: on the fresh engine, `"H4"` fails with `-1` and an
unchanged state, while `"A4"` succeeds with status 0 and a `note_on` at
MIDI pitch 69. -/
theorem C9_note_name_atomicity_witness :
    engine_note_on_name nfConst nfConst (VoiceManagerState.init 48000) "H4" 1 =
      (-1, VoiceManagerState.init 48000) ∧
    engine_note_on_name nfConst nfConst (VoiceManagerState.init 48000) "A4" 1 =
      (0, (VoiceManagerState.init 48000).note_on nfConst 69 1 (nfConst 69)) :=
  ⟨(C9_note_name_atomicity nfConst nfConst).1 (VoiceManagerState.init 48000) "H4" 1
      (by decide),
    (C9_note_name_atomicity nfConst nfConst).2.1 (VoiceManagerState.init 48000) "A4" 1 69
      (by decide)⟩

lemma and_two_pow_sub_one (x k : Nat) : x &&& (2 ^ k - 1) = x % 2 ^ k := by
  apply Nat.eq_of_testBit_eq
  intro i
  rw [Nat.testBit_and, Nat.testBit_two_pow_sub_one, Nat.testBit_mod_two_pow,
    Bool.and_comm]

lemma ring_count_iff (size h t : Nat) (hs : 1 ≤ size) (hh : h < size) (ht : t < size) :
    (h + 1) % size = t ↔ (size + h - t) % size = size - 1 := by
  by_cases hcase : h + 1 = size
  · have h1 : (h + 1) % size = 0 := by
      rw [hcase, Nat.mod_self]
    rw [h1]
    constructor
    · intro ht0
      have hv : size + h - t = (size - 1) + 1 * size := by omega
      rw [hv, Nat.add_mul_mod_self_right, Nat.mod_eq_of_lt (by omega)]
    · intro hcount
      have hv : size + h - t = (size - 1 - t) + 1 * size := by omega
      rw [hv, Nat.add_mul_mod_self_right, Nat.mod_eq_of_lt (by omega)] at hcount
      omega
  · have hlt : h + 1 < size := by omega
    rw [Nat.mod_eq_of_lt hlt]
    constructor
    · intro heq
      have hv : size + h - t = size - 1 := by omega
      rw [hv, Nat.mod_eq_of_lt (by omega)]
    · intro hcount
      by_cases hth : t ≤ h
      · have hv : size + h - t = (h - t) + 1 * size := by omega
        rw [hv, Nat.add_mul_mod_self_right, Nat.mod_eq_of_lt (by omega)] at hcount
        omega
      · have hv : size + h - t < size := by omega
        rw [Nat.mod_eq_of_lt hv] at hcount
        omega

/-- C10: on a power-of-two ring, `push` on a full ring returns `false` and
leaves buffer, head and tail unchanged; the ring is full exactly when it
holds `size - 1` entries; and the entry count never exceeds `size - 1`
(for the 1024-slot logger ring: at most 1023 entries). -/
theorem C10_ring_full_drop (T : Type) (k size : Nat) (hsize : size = 2 ^ k)
    (r : RingBuffer T size) (x : T) (hh : r.head < size) (ht : r.tail < size) :
    ((r.head + 1) &&& (size - 1) = r.tail → r.push x = (false, r)) ∧
    ((r.head + 1) &&& (size - 1) = r.tail ↔ r.count = size - 1) ∧
    r.count ≤ size - 1 := by
  have hs1 : 1 ≤ size := by
    rw [hsize]
    exact Nat.one_le_two_pow
  have hland : (r.head + 1) &&& (size - 1) = (r.head + 1) % size := by
    have h2 := and_two_pow_sub_one (r.head + 1) k
    rw [← hsize] at h2
    exact h2
  refine ⟨?_, ?_, ?_⟩
  · intro hfull
    rw [RingBuffer.push, if_pos hfull]
  · rw [hland, RingBuffer.count]
    exact ring_count_iff size r.head r.tail hs1 hh ht
  · rw [RingBuffer.count]
    have := Nat.mod_lt (size + r.head - r.tail) (show 0 < size by omega)
    omega

/-- Witness for C10: the 1024-slot logger ring with `head = 1023`,
`tail = 0` is full; `push` drops the entry and leaves the state unchanged,
and the ring holds exactly 1023 = 1024 - 1 entries. -/
theorem C10_ring_full_drop_witness :
    ((1023 + 1) &&& (1023 : Nat) = 0) ∧
    (RingBuffer.push (⟨List.replicate 1024 0, 1023, 0⟩ : RingBuffer Nat 1024) 7 =
      (false, ⟨List.replicate 1024 0, 1023, 0⟩)) ∧
    (RingBuffer.count (⟨List.replicate 1024 0, 1023, 0⟩ : RingBuffer Nat 1024) = 1023) ∧
    (RingBuffer.count (⟨List.replicate 1024 0, 1023, 0⟩ : RingBuffer Nat 1024) ≤ 1023) :=
  ⟨by decide,
    (C10_ring_full_drop Nat 10 1024 (by decide) ⟨List.replicate 1024 0, 1023, 0⟩ 7
      (by decide) (by decide)).1 (by decide),
    ((C10_ring_full_drop Nat 10 1024 (by decide) ⟨List.replicate 1024 0, 1023, 0⟩ 7
      (by decide) (by decide)).2.1).1 (by decide),
    (C10_ring_full_drop Nat 10 1024 (by decide) ⟨List.replicate 1024 0, 1023, 0⟩ 7
      (by decide) (by decide)).2.2⟩

/-- C3: tempo-change continuity. For every `MusicalClock` state (in
particular every state reachable through `set_bpm`, `set_sample_rate` and
`advance`), `current_time()` and `total_ticks()` immediately after a
`set_bpm` or `set_sample_rate` call equal their values immediately before
the call. -/
theorem C3_tempo_change_continuity (c : MusicalClock) (b r : ℚ) :
    (c.set_bpm b).current_time = c.current_time ∧
    (c.set_bpm b).total_ticks = c.total_ticks ∧
    (c.set_sample_rate r).current_time = c.current_time ∧
    (c.set_sample_rate r).total_ticks = c.total_ticks := by
  refine ⟨rfl, rfl, rfl, rfl⟩

end Synth
